import Mathlib

/-!
Verification development for the resilient LLM invocation layer of the
quing repository, embedded shallowly from
src/src/components/QuestionGenerator.tsx.

The embedding covers three components of the source file:

* the credential rotation manager: the module level state
  (API_KEY_STATES, currentKeyIndex) becomes an explicit PoolState record
  threaded through the operations setGeminiApiKeys, getNextGeminiKey,
  markKeyError, markKeySuccess and getApiKeyStats;
* the resilient call loop callGeminiAPI: the outbound fetch is
  abstracted to an oracle giving the classified outcome of each outbound
  call (HTTP status plus extracted error message, a parsed body, or a
  thrown transport exception), and Date.now to a time oracle; the loop
  itself, its attempt counter, its retry budget and its wait or no wait
  decisions are embedded step by step;
* the tolerant parser: sanitizeJsonString and the six strategies of
  parseJsonRobust are embedded over List Char, with every regex of the
  source realised as a dedicated scanner whose semantics follows the
  JavaScript regex replace rules (leftmost match, non overlapping,
  continue after the replacement), and JSON.parse realised as a strict
  JSON parser (numbers are kept as their lexeme, since no claim inspects
  numeric values; object fields are kept in textual order).

All recursions are structural so that every definition evaluates inside
the kernel.
-/

namespace Quing

/-! ## Generic list helpers -/

/-- Replace the element at a given index by applying a function; out of
range indices leave the list unchanged.  Models an in place update of a
JavaScript array element. -/
def updateAt {α : Type} : List α → Nat → (α → α) → List α
  | [], _, _ => []
  | a :: l, 0, f => f a :: l
  | a :: l, n + 1, f => a :: updateAt l n f

/-- One fueled rewriting engine used for all regex replace passes of the
source.  find inspects the current suffix; a result some (k, out) means
the first k characters (k at least 1) form a match to be replaced by
out; none means no match starts here and scanning advances one
character.  This is exactly the JavaScript global replace discipline:
leftmost match, non overlapping, scanning resumes after the replaced
span. -/
def rewriteFuel (find : List Char → Option (Nat × List Char)) : Nat → List Char → List Char
  | 0, s => s
  | _, [] => []
  | f + 1, c :: cs =>
    match find (c :: cs) with
    | some (k, out) => out ++ rewriteFuel find f (List.drop (k - 1) cs)
    | none => c :: rewriteFuel find f cs

/-- Run the rewriting engine with enough fuel for the whole input. -/
def rewriteAll (find : List Char → Option (Nat × List Char)) (s : List Char) : List Char :=
  rewriteFuel find s.length s

/-- Matcher for a literal pattern replaced by a fixed string. -/
def litFind (pat repl : List Char) : List Char → Option (Nat × List Char) := fun s =>
  if pat ≠ [] ∧ pat.isPrefixOf s then some (pat.length, repl) else none

/-- Global literal replacement, the JavaScript split join and regex
replace on an escaped literal pattern. -/
def replaceAllL (pat repl : List Char) (s : List Char) : List Char :=
  rewriteAll (litFind pat repl) s

/-- Case insensitive prefix test for the gi regex flags of the source. -/
def ciStarts : List Char → List Char → Bool
  | [], _ => true
  | _ :: _, [] => false
  | p :: ps, c :: cs => (c.toLower == p.toLower) && ciStarts ps cs

/-- Matcher for a case insensitive literal pattern. -/
def litFindCI (pat repl : List Char) : List Char → Option (Nat × List Char) := fun s =>
  if pat ≠ [] ∧ ciStarts pat s then some (pat.length, repl) else none

/-- Global case insensitive literal replacement. -/
def replaceAllCI (pat repl : List Char) (s : List Char) : List Char :=
  rewriteAll (litFindCI pat repl) s

/-- Matcher for a one character class replaced by a fixed string. -/
def classFind (p : Char → Bool) (repl : List Char) : List Char → Option (Nat × List Char)
  | c :: _ => if p c then some (1, repl) else none
  | [] => none

/-- Global replacement of every character of a class. -/
def replaceClass (p : Char → Bool) (repl : List Char) (s : List Char) : List Char :=
  rewriteAll (classFind p repl) s

/-- The JavaScript regex whitespace class backslash s, also the
character set of String.prototype.trim. -/
def isJsWs (c : Char) : Bool :=
  c == ' ' || c == '\t' || c == '\n' || c == '\x0b' || c == '\x0c' || c == '\r' ||
  c.toNat == 0xa0 || c.toNat == 0x1680 ||
  (0x2000 ≤ c.toNat && c.toNat ≤ 0x200a) ||
  c.toNat == 0x2028 || c.toNat == 0x2029 || c.toNat == 0x202f ||
  c.toNat == 0x205f || c.toNat == 0x3000 || c.toNat == 0xfeff

/-- Matcher for a maximal whitespace run, replaced by a single space. -/
def wsRunFind : List Char → Option (Nat × List Char)
  | c :: cs => if isJsWs c then some (1 + (cs.takeWhile isJsWs).length, [' ']) else none
  | [] => none

/-- The whitespace collapsing pass of the source. -/
def collapseWs (s : List Char) : List Char :=
  rewriteAll wsRunFind s

/-- JavaScript String.prototype.trim over the character list. -/
def trimChars (s : List Char) : List Char :=
  ((s.dropWhile isJsWs).reverse.dropWhile isJsWs).reverse

/-- JavaScript String.prototype.trim at the String level. -/
def jsTrim (s : String) : String :=
  String.mk (trimChars s.data)

def emptyStr : String := ""

/-- Substring containment test, the JavaScript String.prototype.includes. -/
def hasSubL (pat s : List Char) : Bool :=
  s.tails.any (fun t => pat.isPrefixOf t)

/-- String level substring containment for error message classification. -/
def hasSubstr (s pat : String) : Bool :=
  hasSubL pat.data s.data

/-! ## Credential rotation manager

Embedding of the ApiKeyState interface and of the module level mutable
pool (API_KEY_STATES, currentKeyIndex) of the source; lastUsedAt holds
the Date.now value of the last selection. -/

structure ApiKeyState where
  key : String
  usageCount : Nat
  errorCount : Nat
  lastError : Option String
  lastUsedAt : Option Nat
  isActive : Bool
deriving Repr, DecidableEq

structure PoolState where
  states : List ApiKeyState
  currentKeyIndex : Nat
deriving Repr, DecidableEq

def noValidKeysMsg : String := "No valid API keys provided"

def noKeysMsg : String := "No Gemini API keys configured. Please add API keys first."

/-- A freshly configured entry of setGeminiApiKeys. -/
def freshKeyState (k : String) : ApiKeyState :=
  { key := jsTrim k, usageCount := 0, errorCount := 0, lastError := none,
    lastUsedAt := none, isActive := true }

/-- setGeminiApiKeys: filters blank keys, fails when none remain,
otherwise replaces the pool with fresh entries and resets the cursor. -/
def setGeminiApiKeys (keys : List String) : Except String PoolState :=
  let validKeys := keys.filter (fun k => jsTrim k ≠ "")
  if validKeys.length = 0 then Except.error noValidKeysMsg
  else Except.ok { states := validKeys.map freshKeyState, currentKeyIndex := 0 }

/-- The scanning while loop of getNextGeminiKey: probe the index, then
advance by one modulo the pool size, for at most pool size attempts.
An out of range probe (impossible for a cursor below the pool size)
yields none. -/
def scanActiveAux (states : List ApiKeyState) : Nat → Nat → Option (Nat × ApiKeyState)
  | _, 0 => none
  | idx, remaining + 1 =>
    match states[idx]? with
    | some st =>
      if st.isActive then some (idx, st)
      else scanActiveAux states ((idx + 1) % states.length) remaining
    | none => none

def scanActive (states : List ApiKeyState) (start : Nat) : Option (Nat × ApiKeyState) :=
  scanActiveAux states start states.length

/-- The full pool reset of getNextGeminiKey when every key is inactive:
every entry gets isActive true and errorCount 0; nothing else changes. -/
def resetAllKeys (s : PoolState) : PoolState :=
  { states := s.states.map (fun st => { st with isActive := true, errorCount := 0 }),
    currentKeyIndex := s.currentKeyIndex }

/-- The usage update applied to the selected entry: usageCount is
incremented and lastUsedAt set to the current time. -/
def selUpdate (now : Nat) (st : ApiKeyState) : ApiKeyState :=
  { st with usageCount := st.usageCount + 1, lastUsedAt := some now }

def noActiveKeyFuelMsg : String := "unreachable: reset guarantees an active key"

/-- getNextGeminiKey with an explicit recursion bound: the source calls
itself recursively after the full pool reset; since the reset makes
every key active, one recursive call always suffices, so fuel 2 is
faithful to the terminating behaviour. -/
def getNextGeminiKeyAux : Nat → PoolState → Nat → Except String (String × Nat × PoolState)
  | 0, _, _ => Except.error noActiveKeyFuelMsg
  | fuel + 1, s, now =>
    if s.states.length = 0 then Except.error noKeysMsg
    else
      match scanActive s.states s.currentKeyIndex with
      | some (i, st) =>
        Except.ok (st.key, i,
          { states := updateAt s.states i (selUpdate now),
            currentKeyIndex := (i + 1) % s.states.length })
      | none => getNextGeminiKeyAux fuel (resetAllKeys s) now

def getNextGeminiKey (s : PoolState) (now : Nat) : Except String (String × Nat × PoolState) :=
  getNextGeminiKeyAux 2 s now

/-- The per entry update of markKeyError: increment errorCount, store
the message, deactivate when the new count reaches 3. -/
def errF (msg : String) (st : ApiKeyState) : ApiKeyState :=
  { st with errorCount := st.errorCount + 1, lastError := some msg,
            isActive := if 3 ≤ st.errorCount + 1 then false else st.isActive }

/-- markKeyError: only acts on a valid index. -/
def markKeyError (s : PoolState) (keyIndex : Nat) (msg : String) : PoolState :=
  if keyIndex < s.states.length then
    { states := updateAt s.states keyIndex (errF msg), currentKeyIndex := s.currentKeyIndex }
  else s

/-- The per entry update of markKeySuccess. -/
def succF (st : ApiKeyState) : ApiKeyState :=
  { st with errorCount := 0, lastError := none }

/-- markKeySuccess: only acts on a valid index. -/
def markKeySuccess (s : PoolState) (keyIndex : Nat) : PoolState :=
  if keyIndex < s.states.length then
    { states := updateAt s.states keyIndex succF, currentKeyIndex := s.currentKeyIndex }
  else s

def neverLit : String := "Never"

structure KeyStats where
  index : Nat
  usageCount : Nat
  errorCount : Nat
  lastError : Option String
  isActive : Bool
  lastUsedAt : String
deriving Repr, DecidableEq

/-- The toLocaleString rendering of a stored timestamp is abstracted to
its decimal rendering; absent timestamps display Never as in the
source. -/
def formatLastUsedAt : Option Nat → String
  | some t => toString t
  | none => neverLit

def statEntry (i : Nat) (st : ApiKeyState) : KeyStats :=
  { index := i + 1, usageCount := st.usageCount, errorCount := st.errorCount,
    lastError := st.lastError, isActive := st.isActive,
    lastUsedAt := formatLastUsedAt st.lastUsedAt }

def statsAux (i : Nat) : List ApiKeyState → List KeyStats
  | [] => []
  | st :: rest => statEntry i st :: statsAux (i + 1) rest

/-- getApiKeyStats: a read only snapshot with one based display indices. -/
def getApiKeyStats (s : PoolState) : List KeyStats :=
  statsAux 0 s.states

/-! ## Resilient invocation layer

The outbound fetch of callGeminiAPI is abstracted to an oracle mapping
the attempt number to a classified outcome.  A GeminiBody records the
only three facts the source inspects about a parsed response body:
whether candidates[0].content exists, the optional
promptFeedback.blockReason, and the optional candidates[0].content
.parts[0].text (a missing or empty text both fail the text checkpoint,
mirroring JavaScript truthiness). -/

structure GeminiBody where
  hasCandidateContent : Bool
  blockReason : Option String
  text : Option String
deriving Repr, DecidableEq

inductive FetchOutcome where
  | httpError (status : Nat) (errorMessage : String)
  | ok (body : GeminiBody)
  | exn (message : String)
deriving Repr, DecidableEq

/-- The outcome of one iteration of the retry loop after the outbound
call: either a response text, or a recorded failure together with the
decision whether the fixed 10 second backoff is taken before the next
attempt. -/
inductive AttemptResult where
  | success (text : String)
  | failure (waitTenSeconds : Bool)
deriving Repr, DecidableEq

def unregisteredCallersLit : String := "unregistered callers"

def apiKeyNotValidLit : String := "API key not valid"

def invalidStructureMsg : String := "Invalid response structure"

def noTextMsg : String := "No text content in response"

def contentBlockedLit : String := "Content blocked by Gemini: "

def emptyPromptMsg : String := "Prompt cannot be empty"

/-- The body of the retry loop of callGeminiAPI after the credential was
selected, given the classified outcome of the outbound call.  isLast
records whether the attempt counter has reached the retry budget: the
catch handler of the source waits 10 seconds only when further attempts
remain, while the in branch waits are unconditional.  A thrown content
safety error is caught by the same catch handler as a transport
exception. -/
def attemptStep (s : PoolState) (keyIndex : Nat) (o : FetchOutcome) (isLast : Bool) :
    PoolState × AttemptResult :=
  match o with
  | .httpError status msg =>
    let s1 := markKeyError s keyIndex msg
    if status = 403 ∧ hasSubstr msg unregisteredCallersLit then (s1, .failure true)
    else if status = 400 ∧ hasSubstr msg apiKeyNotValidLit then (s1, .failure false)
    else if status = 429 ∨ 500 ≤ status then (s1, .failure true)
    else (s1, .failure true)
  | .ok body =>
    if body.hasCandidateContent = false then
      match body.blockReason with
      | some reason =>
        (markKeyError s keyIndex (contentBlockedLit ++ reason), .failure (!isLast))
      | none => (markKeyError s keyIndex invalidStructureMsg, .failure true)
    else if body.text.getD emptyStr = emptyStr then
      (markKeyError s keyIndex noTextMsg, .failure true)
    else (markKeySuccess s keyIndex, .success (body.text.getD emptyStr))
  | .exn msg => (markKeyError s keyIndex msg, .failure (!isLast))

/-- True exactly when the outcome passes both response checkpoints and
yields extractable text. -/
def outcomeSucceeds : FetchOutcome → Bool
  | .ok body => body.hasCandidateContent && !(body.text.getD emptyStr == emptyStr)
  | _ => false

/-- The text returned on a successful outcome. -/
def extractedText : FetchOutcome → String
  | .ok body => body.text.getD emptyStr
  | _ => emptyStr

def exhaustMsg (n : Nat) : String :=
  "Failed to generate content after " ++ toString n ++
  " attempts across all API keys. Please check your API keys and try again."

/-- The while loop of callGeminiAPI.  The fuel is the remaining attempt
budget; the returned Nat is the final attemptCount.  A failure of
getNextGeminiKey (possible only for an empty pool, which cannot enter
the loop) propagates out of the call as in the source, where the
selection happens outside the try block. -/
def callLoop (oracle : Nat → FetchOutcome) (time : Nat → Nat) :
    Nat → PoolState → Nat → Except String String × PoolState × Nat
  | 0, s, attemptCount => (Except.error (exhaustMsg attemptCount), s, attemptCount)
  | fuel + 1, s, attemptCount =>
    let ac := attemptCount + 1
    match getNextGeminiKey s (time ac) with
    | .error e => (Except.error e, s, ac)
    | .ok (_, keyIndex, s1) =>
      match attemptStep s1 keyIndex (oracle ac) (fuel == 0) with
      | (s2, .success t) => (Except.ok t, s2, ac)
      | (s2, .failure _) => callLoop oracle time fuel s2 ac

/-- callGeminiAPI: validates the prompt, computes the retry budget of
pool size times 3, and runs the retry loop.  Returns the result, the
final pool state and the number of attempts made. -/
def callGeminiAPI (prompt : String) (oracle : Nat → FetchOutcome) (time : Nat → Nat)
    (s : PoolState) : Except String String × PoolState × Nat :=
  let maxTotalRetries := s.states.length * 3
  if jsTrim prompt = "" then (Except.error emptyPromptMsg, s, 0)
  else callLoop oracle time maxTotalRetries s 0

/-! ## Tolerant structured output parser

Embedding of sanitizeJsonString and parseJsonRobust.  Every regex of
the source becomes a matcher fed to the rewriting engine above;
JSON.parse becomes a strict JSON parser over List Char. -/

def fenceJsonLit : List Char := "```json".data

def fenceJavascriptLit : List Char := "```javascript".data

def fenceJsLit : List Char := "```js".data

def fenceLit : List Char := "```".data

def jsonLit : List Char := "json".data

def escProt : List Char := "___ESCAPE___".data

def quoteWord : List Char := "quote".data

def backslashWord : List Char := "backslash".data

/-- The control character class of sanitize steps 2 and 8:
x00 to x08, x0B, x0C, x0E to x1F and x7F (newline, carriage return and
tab are excluded and handled by their own passes). -/
def ctrlA (c : Char) : Bool :=
  c.toNat ≤ 8 || c.toNat == 0x0b || c.toNat == 0x0c ||
  (0x0e ≤ c.toNat && c.toNat ≤ 0x1f) || c.toNat == 0x7f

/-- The control character class of strategy 4: x00 to x1F and x7F to x9F. -/
def ctrlB (c : Char) : Bool :=
  c.toNat ≤ 0x1f || (0x7f ≤ c.toNat && c.toNat ≤ 0x9f)

/-- The control character class of strategy 5: x00 to x09, x0B to x1F
and x7F to x9F (a literal newline survives this class). -/
def ctrlC (c : Char) : Bool :=
  c.toNat ≤ 9 || (0x0b ≤ c.toNat && c.toNat ≤ 0x1f) ||
  (0x7f ≤ c.toNat && c.toNat ≤ 0x9f)

def isSmartDouble (c : Char) : Bool := c.toNat == 0x201c || c.toNat == 0x201d

def isSmartSingle (c : Char) : Bool := c.toNat == 0x2018 || c.toNat == 0x2019

def isEllipsis (c : Char) : Bool := c.toNat == 0x2026

def ellipsisRepl : List Char := "...".data

/-- The escape protection table of sanitize step 2, in source order;
restoration walks the same list. -/
def escPairs : List (List Char × List Char) :=
  [ (['\\', 'n'], escProt ++ ['n']),
    (['\\', 'r'], escProt ++ ['r']),
    (['\\', 't'], escProt ++ ['t']),
    (['\\', 'f'], escProt ++ ['f']),
    (['\\', 'b'], escProt ++ ['b']),
    (['\\', '"'], escProt ++ quoteWord),
    (['\\', '\\'], escProt ++ backslashWord) ]

def applyPairs (ps : List (List Char × List Char)) (s : List Char) : List Char :=
  ps.foldl (fun acc p => replaceAllL p.1 p.2 acc) s

def applyPairsRev (ps : List (List Char × List Char)) (s : List Char) : List Char :=
  ps.foldl (fun acc p => replaceAllL p.2 p.1 acc) s

/-- The anchored gi regex removing optional whitespace, the word json
and optional whitespace at the start of the string. -/
def stripLeadingJson (s : List Char) : List Char :=
  let ws := s.takeWhile isJsWs
  let rest := s.drop ws.length
  if ciStarts jsonLit rest then (rest.drop 4).dropWhile isJsWs else s

def isDigitC (c : Char) : Bool := '0' ≤ c && c ≤ '9'

def isHexD (c : Char) : Bool :=
  isDigitC c || ('a' ≤ c && c ≤ 'f') || ('A' ≤ c && c ≤ 'F')

def isOctD (c : Char) : Bool := '0' ≤ c && c ≤ '7'

def natDigitsL (k : Nat) : List Char := (Nat.repr k).data

def placeholderU (k : Nat) : List Char :=
  "___VALID_UNICODE_".data ++ natDigitsL k ++ "___".data

/-- Protection of valid backslash u escapes: each four hex digit escape
is replaced by an indexed placeholder; the list of protected escapes is
returned in placeholder order.  The fuel argument only enables
structural recursion; the input length is always enough. -/
def protectUniFuel : Nat → List Char → Nat → List (List Char) → List Char × Nat × List (List Char)
  | 0, s, k, acc => (s, k, acc)
  | f + 1, s, k, acc =>
    match s with
    | [] => ([], k, acc)
    | '\\' :: 'u' :: a :: b :: c :: d :: rest =>
      if isHexD a && isHexD b && isHexD c && isHexD d then
        let r := protectUniFuel f rest (k + 1) (acc ++ [['\\', 'u', a, b, c, d]])
        (placeholderU k ++ r.1, r.2.1, r.2.2)
      else
        let r := protectUniFuel f ('u' :: a :: b :: c :: d :: rest) k acc
        ('\\' :: r.1, r.2.1, r.2.2)
    | c0 :: cs =>
      let r := protectUniFuel f cs k acc
      (c0 :: r.1, r.2.1, r.2.2)

def protectValidUnicode (s : List Char) : List Char × List (List Char) :=
  let r := protectUniFuel s.length s 0 []
  (r.1, r.2.2)

/-- The regex removing a backslash u not followed by an underscore,
replacing the three characters by a plain u. -/
def invalidUniFind : List Char → Option (Nat × List Char)
  | '\\' :: 'u' :: c :: _ => if c == '_' then none else some (3, ['u'])
  | _ => none

/-- The end anchored regex turning a trailing backslash u into u. -/
def fixTrailingUni (s : List Char) : List Char :=
  match s.reverse with
  | 'u' :: '\\' :: rest => ('u' :: rest).reverse
  | _ => s

/-- First occurrence only literal replacement, the JavaScript
String.prototype.replace with a string pattern. -/
def replaceFirstFuel (pat repl : List Char) : Nat → List Char → List Char
  | 0, s => s
  | _, [] => []
  | f + 1, c :: cs =>
    if pat ≠ [] ∧ pat.isPrefixOf (c :: cs) then repl ++ List.drop (pat.length - 1) cs
    else c :: replaceFirstFuel pat repl f cs

def replaceFirstL (pat repl : List Char) (s : List Char) : List Char :=
  replaceFirstFuel pat repl s.length s

def restoreUniAux : Nat → List (List Char) → List Char → List Char
  | _, [], s => s
  | k, orig :: rest, s => restoreUniAux (k + 1) rest (replaceFirstL (placeholderU k) orig s)

/-- The trailing comma regex of sanitize step 5: a comma followed by
optional whitespace and a closing bracket loses the comma and keeps the
captured whitespace and bracket. -/
def trailingCommaFind : List Char → Option (Nat × List Char)
  | ',' :: cs =>
    let ws := cs.takeWhile isJsWs
    match cs.drop ws.length with
    | b :: _ => if b == '\x7d' || b == ']' then some (1 + ws.length + 1, ws ++ [b]) else none
    | [] => none
  | _ => none

def validEscapeChar (c : Char) : Bool :=
  c == '"' || c == '\\' || c == '/' || c == 'b' || c == 'f' ||
  c == 'n' || c == 'r' || c == 't' || c == 'u'

/-- Sanitize step 7: a backslash before a character outside the valid
JSON escape set loses the backslash and keeps the character. -/
def invalidEscapeFind : List Char → Option (Nat × List Char)
  | '\\' :: c :: _ => if validEscapeChar c then none else some (2, [c])
  | _ => none

/-- Sanitize step 8: backslash x with up to two hex digits, removed. -/
def hexEscapeFind : List Char → Option (Nat × List Char)
  | '\\' :: 'x' :: c1 :: c2 :: _ =>
    if isHexD c1 && isHexD c2 then some (4, [])
    else if isHexD c1 then some (3, [])
    else some (2, [])
  | '\\' :: 'x' :: c1 :: [] => if isHexD c1 then some (3, []) else some (2, [])
  | '\\' :: 'x' :: [] => some (2, [])
  | _ => none

/-- Sanitize step 8: backslash with one to three octal digits, removed. -/
def octalEscapeFind : List Char → Option (Nat × List Char)
  | '\\' :: c1 :: c2 :: c3 :: _ =>
    if isOctD c1 && isOctD c2 && isOctD c3 then some (4, [])
    else if isOctD c1 && isOctD c2 then some (3, [])
    else if isOctD c1 then some (2, [])
    else none
  | '\\' :: c1 :: c2 :: [] =>
    if isOctD c1 && isOctD c2 then some (3, [])
    else if isOctD c1 then some (2, [])
    else none
  | '\\' :: c1 :: [] => if isOctD c1 then some (2, []) else none
  | _ => none

/-- sanitizeJsonString over the character list, pass for pass in source
order. -/
def sanitizeList (s : List Char) : List Char :=
  let s1 := replaceAllCI fenceJsonLit [] s
  let s2 := replaceAllCI fenceJavascriptLit [] s1
  let s3 := replaceAllCI fenceJsLit [] s2
  let s4 := replaceAllL fenceLit [] s3
  let s5 := stripLeadingJson s4
  let s6 := trimChars s5
  let s7 := applyPairs escPairs s6
  let s8 := replaceClass ctrlA [' '] s7
  let s9 := replaceAllL ['\n'] [' '] s8
  let s10 := replaceAllL ['\r'] [' '] s9
  let s11 := replaceAllL ['\t'] [' '] s10
  let s12 := applyPairsRev escPairs s11
  let s13 := replaceClass isSmartDouble ['"'] s12
  let s14 := replaceClass isSmartSingle ['\''] s13
  let s15 := replaceClass isEllipsis ellipsisRepl s14
  let pu := protectValidUnicode s15
  let s16 := rewriteAll invalidUniFind pu.1
  let s17 := fixTrailingUni s16
  let s18 := restoreUniAux 0 pu.2 s17
  let s19 := rewriteAll trailingCommaFind s18
  let s20 := collapseWs s19
  let s21 := rewriteAll invalidEscapeFind s20
  let s22 := rewriteAll hexEscapeFind s21
  let s23 := rewriteAll octalEscapeFind s22
  replaceClass ctrlA [] s23

def sanitizeJsonString (s : String) : String := String.mk (sanitizeList s.data)

/-! ### Strict JSON values and parser (the JSON.parse of the source)

Numbers are kept as their lexeme: no claim inspects a numeric value, so
the embedding does not commit to a float semantics.  Object fields are
kept in textual order.  Lone UTF-16 surrogate escapes fall outside the
Char type and decode through the Char.ofNat fallback; no claim
exercises them. -/

inductive Json where
  | null : Json
  | bool : Bool → Json
  | num : List Char → Json
  | str : List Char → Json
  | arr : List Json → Json
  | obj : List (List Char × Json) → Json

def isJsonWs (c : Char) : Bool := c == ' ' || c == '\t' || c == '\n' || c == '\r'

def jsonSkipWs (s : List Char) : List Char := s.dropWhile isJsonWs

def hexValC (c : Char) : Option Nat :=
  if '0' ≤ c && c ≤ '9' then some (c.toNat - 48)
  else if 'a' ≤ c && c ≤ 'f' then some (c.toNat - 87)
  else if 'A' ≤ c && c ≤ 'F' then some (c.toNat - 55)
  else none

def escDecode : Char → List Char → Option (Char × List Char)
  | '"', rest => some ('"', rest)
  | '\\', rest => some ('\\', rest)
  | '/', rest => some ('/', rest)
  | 'b', rest => some ('\x08', rest)
  | 'f', rest => some ('\x0c', rest)
  | 'n', rest => some ('\n', rest)
  | 'r', rest => some ('\r', rest)
  | 't', rest => some ('\t', rest)
  | 'u', rest =>
    match rest with
    | a :: b :: c :: d :: r2 =>
      match hexValC a, hexValC b, hexValC c, hexValC d with
      | some x1, some x2, some x3, some x4 =>
        some (Char.ofNat (((x1 * 16 + x2) * 16 + x3) * 16 + x4), r2)
      | _, _, _, _ => none
    | _ => none
  | _, _ => none

/-- The body of a JSON string after the opening quote: raw control
characters are rejected, escapes are decoded. -/
def parseStringBody : Nat → List Char → Option (List Char × List Char)
  | 0, _ => none
  | f + 1, s =>
    match s with
    | [] => none
    | '"' :: rest => some ([], rest)
    | '\\' :: e :: rest =>
      match escDecode e rest with
      | some (c, rest2) =>
        match parseStringBody f rest2 with
        | some (content, rest3) => some (c :: content, rest3)
        | none => none
      | none => none
    | c :: rest =>
      if c.toNat < 0x20 then none
      else
        match parseStringBody f rest with
        | some (content, rest2) => some (c :: content, rest2)
        | none => none

def parseStringTop (s : List Char) : Option (List Char × List Char) :=
  parseStringBody (s.length + 1) s

def lexExp (acc rest : List Char) : Option (List Char × List Char) :=
  match rest with
  | c :: r2 =>
    if c == 'e' || c == 'E' then
      match r2 with
      | '+' :: r3 =>
        let ds := r3.takeWhile isDigitC
        if ds.isEmpty then none else some (acc ++ [c, '+'] ++ ds, r3.drop ds.length)
      | '-' :: r3 =>
        let ds := r3.takeWhile isDigitC
        if ds.isEmpty then none else some (acc ++ [c, '-'] ++ ds, r3.drop ds.length)
      | _ =>
        let ds := r2.takeWhile isDigitC
        if ds.isEmpty then none else some (acc ++ [c] ++ ds, r2.drop ds.length)
    else some (acc, rest)
  | [] => some (acc, [])

def lexFracExp (acc rest : List Char) : Option (List Char × List Char) :=
  match rest with
  | '.' :: r2 =>
    let ds := r2.takeWhile isDigitC
    if ds.isEmpty then none else lexExp (acc ++ ['.'] ++ ds) (r2.drop ds.length)
  | _ => lexExp acc rest

def parseNumMag (s : List Char) : Option (List Char × List Char) :=
  match s with
  | '0' :: rest => lexFracExp ['0'] rest
  | c :: rest =>
    if isDigitC c then
      lexFracExp (c :: rest.takeWhile isDigitC) (rest.drop (rest.takeWhile isDigitC).length)
    else none
  | [] => none

def parseNumberLex (s : List Char) : Option (List Char × List Char) :=
  match s with
  | '-' :: rest => (parseNumMag rest).map (fun p => ('-' :: p.1, p.2))
  | _ => parseNumMag s

def rueLit : List Char := "rue".data

def alseLit : List Char := "alse".data

def ullLit : List Char := "ull".data

def expectLit : List Char → List Char → Option (List Char)
  | [], s => some s
  | c :: cs, d :: rest => if c == d then expectLit cs rest else none
  | _ :: _, [] => none

mutual

def parseValueF : Nat → List Char → Option (Json × List Char)
  | 0, _ => none
  | f + 1, s =>
    match jsonSkipWs s with
    | [] => none
    | '"' :: rest =>
      match parseStringTop rest with
      | some (content, rest2) => some (Json.str content, rest2)
      | none => none
    | '[' :: rest => parseArrayF f rest
    | '\x7b' :: rest => parseObjF f rest
    | 't' :: rest =>
      match expectLit rueLit rest with
      | some rest2 => some (Json.bool true, rest2)
      | none => none
    | 'f' :: rest =>
      match expectLit alseLit rest with
      | some rest2 => some (Json.bool false, rest2)
      | none => none
    | 'n' :: rest =>
      match expectLit ullLit rest with
      | some rest2 => some (Json.null, rest2)
      | none => none
    | c :: rest =>
      if c == '-' || isDigitC c then
        match parseNumberLex (c :: rest) with
        | some (lex, rest2) => some (Json.num lex, rest2)
        | none => none
      else none

def parseArrayF : Nat → List Char → Option (Json × List Char)
  | 0, _ => none
  | f + 1, s =>
    match jsonSkipWs s with
    | ']' :: rest => some (Json.arr [], rest)
    | s1 =>
      match parseValueF f s1 with
      | some (v, rest) => parseArrayTailF f [v] rest
      | none => none

def parseArrayTailF : Nat → List Json → List Char → Option (Json × List Char)
  | 0, _, _ => none
  | f + 1, acc, s =>
    match jsonSkipWs s with
    | ',' :: rest =>
      match parseValueF f rest with
      | some (v, rest2) => parseArrayTailF f (acc ++ [v]) rest2
      | none => none
    | ']' :: rest => some (Json.arr acc, rest)
    | _ => none

def parseObjF : Nat → List Char → Option (Json × List Char)
  | 0, _ => none
  | f + 1, s =>
    match jsonSkipWs s with
    | '\x7d' :: rest => some (Json.obj [], rest)
    | '"' :: rest =>
      match parseStringTop rest with
      | some (key, rest2) =>
        match jsonSkipWs rest2 with
        | ':' :: rest3 =>
          match parseValueF f rest3 with
          | some (v, rest4) => parseObjTailF f [(key, v)] rest4
          | none => none
        | _ => none
      | none => none
    | _ => none

def parseObjTailF : Nat → List (List Char × Json) → List Char → Option (Json × List Char)
  | 0, _, _ => none
  | f + 1, acc, s =>
    match jsonSkipWs s with
    | ',' :: rest =>
      match jsonSkipWs rest with
      | '"' :: rest1 =>
        match parseStringTop rest1 with
        | some (key, rest2) =>
          match jsonSkipWs rest2 with
          | ':' :: rest3 =>
            match parseValueF f rest3 with
            | some (v, rest4) => parseObjTailF f (acc ++ [(key, v)]) rest4
            | none => none
          | _ => none
        | none => none
      | _ => none
    | '\x7d' :: rest => some (Json.obj acc, rest)
    | _ => none

end

/-- JSON.parse: a single value, optionally surrounded by whitespace,
consuming the whole input. -/
def jsonParse (s : List Char) : Option Json :=
  match parseValueF (2 * s.length + 8) s with
  | some (v, rest) => if jsonSkipWs rest = [] then some v else none
  | none => none

/-! ### The six strategies of parseJsonRobust -/

inductive ExpectedType where
  | array : ExpectedType
  | object : ExpectedType
deriving Repr, DecidableEq

def bracketChars : ExpectedType → Char × Char
  | .array => ('[', ']')
  | .object => ('\x7b', '\x7d')

def typeName : ExpectedType → String
  | .array => "array"
  | .object => "object"

def noJsonFoundMsg : String := "No JSON found in response"

def noOpeningBracketMsg : String := "No opening bracket found"

def invalidBracketPositionsMsg : String := "Invalid bracket positions"

def noJsonAfterCleanMsg : String := "No JSON after aggressive cleaning"

def cannotFindBoundariesMsg : String := "Cannot find JSON boundaries"

def noMatchingClosingMsg : String := "No matching closing bracket found"

/-- Stand in for the engine specific SyntaxError message of JSON.parse;
no claim depends on its wording. -/
def jsonSyntaxErrMsg : String := "Unexpected token in JSON"

def parseOrErr (s : List Char) : Except String Json :=
  match jsonParse s with
  | some v => Except.ok v
  | none => Except.error jsonSyntaxErrMsg

def lastIdxOf (c : Char) (s : List Char) : Option Nat :=
  match s.reverse.findIdx? (· == c) with
  | some r => some (s.length - 1 - r)
  | none => none

/-- The greedy bracket regex of strategies 1 and 4: it matches from the
first opening bracket that precedes the last closing bracket of the
whole string, up to that last closing bracket. -/
def matchGreedy (et : ExpectedType) (s : List Char) : Option (List Char) :=
  match lastIdxOf (bracketChars et).2 s, s.findIdx? (· == (bracketChars et).1) with
  | some j, some p => if p < j then some ((s.drop p).take (j - p + 1)) else none
  | _, _ => none

def strategy1 (r : List Char) (et : ExpectedType) : Except String Json :=
  match matchGreedy et r with
  | none => Except.error noJsonFoundMsg
  | some m => parseOrErr (sanitizeList m)

def strategy2 (r : List Char) (et : ExpectedType) : Except String Json :=
  match r.findIdx? (· == (bracketChars et).1) with
  | none => Except.error noOpeningBracketMsg
  | some i => parseOrErr (sanitizeList (r.drop i))

def strategy3 (r : List Char) (et : ExpectedType) : Except String Json :=
  match r.findIdx? (· == (bracketChars et).1), lastIdxOf (bracketChars et).2 r with
  | some i, some j =>
    if j ≤ i then Except.error invalidBracketPositionsMsg
    else parseOrErr (sanitizeList ((r.drop i).take (j - i + 1)))
  | _, _ => Except.error invalidBracketPositionsMsg

/-- The escape protection table of strategy 4, in the insertion order
of the source object literal. -/
def escMapS4 : List (List Char × List Char) :=
  [ (['\\', 'n'], r"___NEWLINE___".data),
    (['\\', 'r'], r"___RETURN___".data),
    (['\\', 't'], r"___TAB___".data),
    (['\\', '"'], r"___QUOTE___".data),
    (['\\', '\\'], r"___BACKSLASH___".data),
    (['\\', 'f'], r"___FORMFEED___".data),
    (['\\', 'b'], r"___BACKSPACE___".data) ]

def jsonBsLit : List Char := ['j', 's', 'o', 'n', '\\']

/-- The anchored gi regex of strategy 4: the word json, a literal
backslash (the source doubles the backslash inside the regex literal)
and a run of the letter s. -/
def stripLeadingJsonBackslashS (s : List Char) : List Char :=
  if ciStarts jsonBsLit s then (s.drop 5).dropWhile (fun c => c.toLower == 's') else s

/-- The cleaning pipeline of strategy 4. -/
def aggressiveClean (r : List Char) : List Char :=
  let s1 := replaceAllCI fenceJsonLit [] r
  let s2 := replaceAllCI fenceJavascriptLit [] s1
  let s3 := replaceAllCI fenceJsLit [] s2
  let s4 := replaceAllL fenceLit [] s3
  let s5 := stripLeadingJsonBackslashS s4
  let s6 := trimChars s5
  let s7 := applyPairs escMapS4 s6
  let s8 := replaceClass ctrlB [' '] s7
  let s9 := applyPairsRev escMapS4 s8
  let s10 := replaceClass isSmartDouble ['"'] s9
  let s11 := replaceClass isSmartSingle ['\''] s10
  let s12 := replaceClass isEllipsis ellipsisRepl s11
  collapseWs s12

def strategy4 (r : List Char) (et : ExpectedType) : Except String Json :=
  match matchGreedy et (aggressiveClean r) with
  | none => Except.error noJsonAfterCleanMsg
  | some m => parseOrErr m

def placeholderP (k : Nat) : List Char :=
  "___PROTECTED_".data ++ natDigitsL k ++ "___".data

/-- One protection pass of strategy 5 for a two character escape
sequence: each occurrence gets a fresh indexed placeholder; the counter
and the placeholder to original table are threaded across passes.  The
fuel argument only enables structural recursion; the input length is
always enough. -/
def protectPairFuel (a b : Char) : Nat → List Char → Nat → List (List Char) → List Char × Nat × List (List Char)
  | 0, s, k, acc => (s, k, acc)
  | f + 1, s, k, acc =>
    match s with
    | [] => ([], k, acc)
    | c0 :: cs =>
      match cs with
      | d :: rest =>
        if c0 == a && d == b then
          let r := protectPairFuel a b f rest (k + 1) (acc ++ [[a, b]])
          (placeholderP k ++ r.1, r.2.1, r.2.2)
        else
          let r := protectPairFuel a b f cs k acc
          (c0 :: r.1, r.2.1, r.2.2)
      | [] => ([c0], k, acc)

def protectPairAux (a b : Char) (s : List Char) (k : Nat) (acc : List (List Char)) :
    List Char × Nat × List (List Char) :=
  protectPairFuel a b s.length s k acc

/-- JavaScript String.prototype.substring: swaps its bounds when given
in descending order. -/
def jsSubstring (a b : Nat) (r : List Char) : List Char :=
  (r.drop (min a b)).take (max a b - min a b)

/-- Strategy 5 comma regex: comma, optional whitespace, closing
bracket, replaced by the bracket alone. -/
def s5CommaFind : List Char → Option (Nat × List Char)
  | ',' :: cs =>
    let ws := cs.takeWhile isJsWs
    match cs.drop ws.length with
    | b :: _ => if b == '\x7d' || b == ']' then some (1 + ws.length + 1, [b]) else none
    | [] => none
  | _ => none

def quoteColonFind : List Char → Option (Nat × List Char)
  | '"' :: cs =>
    let ws := cs.takeWhile isJsWs
    if ws.isEmpty then none
    else
      match cs.drop ws.length with
      | ':' :: _ => some (1 + ws.length + 1, ['"', ':'])
      | _ => none
  | _ => none

def colonQuoteFind : List Char → Option (Nat × List Char)
  | ':' :: cs =>
    let ws := cs.takeWhile isJsWs
    if ws.isEmpty then none
    else
      match cs.drop ws.length with
      | '"' :: _ => some (1 + ws.length + 1, [':', '"'])
      | _ => none
  | _ => none

def commaQuoteFind : List Char → Option (Nat × List Char)
  | ',' :: cs =>
    let ws := cs.takeWhile isJsWs
    if ws.isEmpty then none
    else
      match cs.drop ws.length with
      | '"' :: _ => some (1 + ws.length + 1, [',', '"'])
      | _ => none
  | _ => none

def braceQuoteFind : List Char → Option (Nat × List Char)
  | '\x7b' :: cs =>
    let ws := cs.takeWhile isJsWs
    if ws.isEmpty then none
    else
      match cs.drop ws.length with
      | '"' :: _ => some (1 + ws.length + 1, ['\x7b', '"'])
      | _ => none
  | _ => none

def openWsFind : List Char → Option (Nat × List Char)
  | '[' :: cs =>
    let ws := cs.takeWhile isJsWs
    if ws.isEmpty then none else some (1 + ws.length, ['['])
  | _ => none

def wsCloseFind : List Char → Option (Nat × List Char)
  | c :: cs =>
    if isJsWs c then
      let ws := cs.takeWhile isJsWs
      match cs.drop ws.length with
      | ']' :: _ => some (1 + ws.length + 1, [']'])
      | _ => none
    else none
  | [] => none

def wsBraceFind : List Char → Option (Nat × List Char)
  | c :: cs =>
    if isJsWs c then
      let ws := cs.takeWhile isJsWs
      match cs.drop ws.length with
      | '\x7d' :: _ => some (1 + ws.length + 1, ['\x7d'])
      | _ => none
    else none
  | [] => none

def restoreProtectedAux : Nat → List (List Char) → List Char → List Char
  | _, [], s => s
  | k, orig :: rest, s => restoreProtectedAux (k + 1) rest (replaceAllL (placeholderP k) orig s)

def strategy5 (r : List Char) (et : ExpectedType) : Except String Json :=
  match r.findIdx? (· == (bracketChars et).1), lastIdxOf (bracketChars et).2 r with
  | some fi, some li =>
    let str0 := jsSubstring fi (li + 1) r
    let p1 := protectPairAux '\\' '"' str0 0 []
    let p2 := protectPairAux '\\' '\\' p1.1 p1.2.1 p1.2.2
    let p3 := protectPairAux '\\' 'n' p2.1 p2.2.1 p2.2.2
    let p4 := protectPairAux '\\' 'r' p3.1 p3.2.1 p3.2.2
    let p5 := protectPairAux '\\' 't' p4.1 p4.2.1 p4.2.2
    let p6 := protectPairAux '\\' 'f' p5.1 p5.2.1 p5.2.2
    let p7 := protectPairAux '\\' 'b' p6.1 p6.2.1 p6.2.2
    let c1 := replaceClass ctrlC [' '] p7.1
    let c2 := collapseWs c1
    let c3 := rewriteAll s5CommaFind c2
    let c4 := rewriteAll quoteColonFind c3
    let c5 := rewriteAll colonQuoteFind c4
    let c6 := rewriteAll commaQuoteFind c5
    let c7 := rewriteAll braceQuoteFind c6
    let c8 := rewriteAll openWsFind c7
    let c9 := rewriteAll wsCloseFind c8
    let c10 := rewriteAll wsBraceFind c9
    parseOrErr (restoreProtectedAux 0 p7.2.2 c10)
  | _, _ => Except.error cannotFindBoundariesMsg

/-- The depth counting scan of strategy 6, walking from the first
opening bracket; returns the offset of the position where the depth
returns to zero. -/
def balanceAux (oc cc : Char) : List Char → Int → Nat → Option Nat
  | [], _, _ => none
  | c :: cs, depth, pos =>
    let d1 := if c == oc then depth + 1 else depth
    let d2 := if c == cc then d1 - 1 else d1
    if d2 == 0 then some pos else balanceAux oc cc cs d2 (pos + 1)

def strategy6 (r : List Char) (et : ExpectedType) : Except String Json :=
  match r.findIdx? (· == (bracketChars et).1) with
  | none => Except.error noOpeningBracketMsg
  | some si =>
    match balanceAux (bracketChars et).1 (bracketChars et).2 (r.drop si) 0 0 with
    | none => Except.error noMatchingClosingMsg
    | some rel => parseOrErr (sanitizeList ((r.drop si).take (rel + 1)))

def strategyResults (r : List Char) (et : ExpectedType) : List (Except String Json) :=
  [strategy1 r et, strategy2 r et, strategy3 r et,
   strategy4 r et, strategy5 r et, strategy6 r et]

def strategyLabel (i : Nat) : String := "Strategy " ++ toString i ++ ": "

/-- The strategy loop: first success wins; otherwise the labelled error
messages are collected in order. -/
def runStrategies : List (Except String Json) → Nat → Except (List String) Json
  | [], _ => Except.error []
  | Except.ok v :: _, _ => Except.ok v
  | Except.error e :: rest, i =>
    match runStrategies rest (i + 1) with
    | Except.ok v => Except.ok v
    | Except.error es => Except.error ((strategyLabel i ++ e) :: es)

def mdBlocksMsg : String := "Response contains markdown code blocks"

def ctrlCharsMsg : String := "Response contains control characters"

def invalidEscapesMsg : String := "Response contains invalid escape sequences"

def malformedMsg : String := "Malformed JSON structure"

def noBracketMsg (et : ExpectedType) : String :=
  "No " ++ typeName et ++ " bracket found in response"

/-- The heuristic malformation classifier used when every strategy
failed, in source branch order. -/
def errorSummary (r : List Char) (et : ExpectedType) : String :=
  if hasSubL fenceJsonLit r || hasSubL fenceLit r then mdBlocksMsg
  else if r.any (fun c => c.toNat ≤ 0x1f) then ctrlCharsMsg
  else if !(r.any (fun c => c == (bracketChars et).1)) then noBracketMsg et
  else if hasSubL ['\\', 'b'] (r.take 100) || hasSubL ['\\', 'f'] (r.take 100) then invalidEscapesMsg
  else malformedMsg

def failPreamble : String := "Failed to parse JSON after 6 attempts. Issue: "

def firstErrorLit : String := ". First error: "

/-- parseJsonRobust: run the six strategies in order, return the first
success, or the aggregated diagnostic error. -/
def parseJsonRobust (response : String) (et : ExpectedType) : Except String Json :=
  match runStrategies (strategyResults response.data et) 1 with
  | Except.ok v => Except.ok v
  | Except.error es =>
    Except.error (failPreamble ++ errorSummary response.data et ++ firstErrorLit ++ es.headD emptyStr)

/-! ## Operation sequences over the pool, and derived notions used by
the claims -/

/-- The invariant of one credential: three or more consecutive errors
force deactivation. -/
def KeyInvariant (st : ApiKeyState) : Prop := 3 ≤ st.errorCount → st.isActive = false

/-- The invariant of the whole pool. -/
def PoolInvariant (s : PoolState) : Prop := ∀ st ∈ s.states, KeyInvariant st

/-- Every credential of the pool is active. -/
def AllActive (s : PoolState) : Prop := ∀ st ∈ s.states, st.isActive = true

/-- The operations a caller can perform on the pool state. -/
inductive PoolOp where
  | configure (keys : List String) : PoolOp
  | select (now : Nat) : PoolOp
  | error (idx : Nat) (msg : String) : PoolOp
  | success (idx : Nat) : PoolOp

/-- Apply one operation; a failing operation (configuration with no
valid key, selection on an empty pool) leaves the state unchanged,
matching the source where the exception is thrown before any
mutation. -/
def applyOp (s : PoolState) : PoolOp → PoolState
  | .configure keys =>
    match setGeminiApiKeys keys with
    | Except.ok s2 => s2
    | Except.error _ => s
  | .select now =>
    match getNextGeminiKey s now with
    | Except.ok r => r.2.2
    | Except.error _ => s
  | .error i m => markKeyError s i m
  | .success i => markKeySuccess s i

def applyOps (s : PoolState) (ops : List PoolOp) : PoolState :=
  ops.foldl applyOp s

/-- Run one selection per supplied timestamp, recording the selected
indices in order; stops on a selection failure. -/
def runSelections : PoolState → List Nat → List Nat × PoolState
  | s, [] => ([], s)
  | s, t :: ts =>
    match getNextGeminiKey s t with
    | Except.ok r =>
      let rest := runSelections r.2.2 ts
      (r.2.1 :: rest.1, rest.2)
    | Except.error _ => ([], s)

/-! ## Concrete inputs used by witnesses and counterexamples -/

def wKeysA : List String := [r"alpha"]

def wPoolA : PoolState := ⟨[⟨r"alpha", 0, 0, none, none, true⟩], 0⟩

def wBoomMsg : String := "boom"

def wOpsA : List PoolOp :=
  [PoolOp.error 0 wBoomMsg, PoolOp.error 0 wBoomMsg, PoolOp.error 0 wBoomMsg,
   PoolOp.select 5, PoolOp.success 0]

def wKeysB : List String := [r"alpha", r"beta"]

def wPoolB : PoolState :=
  ⟨[⟨r"alpha", 0, 0, none, none, true⟩, ⟨r"beta", 0, 0, none, none, true⟩], 0⟩

def wTsB : List Nat := [0, 1, 2, 3]

def wDeadPool : PoolState :=
  ⟨[⟨r"k1", 2, 3, some wBoomMsg, some 7, false⟩,
    ⟨r"k2", 0, 4, some wBoomMsg, none, false⟩], 1⟩

def wDeadEntry : ApiKeyState := ⟨r"k2", 0, 4, some wBoomMsg, none, false⟩

def wEmptyPool : PoolState := ⟨[], 0⟩

def wExnMsg : String := "transport down"

def wFetchFail : Nat → FetchOutcome := fun _ => FetchOutcome.exn wExnMsg

def wTime : Nat → Nat := fun t => t

def wPromptHi : String := "hi"

def wPromptBlank : String := "   "

def c7Input : String := "```json\n[\x7b\"a\": \"line one\nline two\"\x7d]\n```"

def c7JoinedValue : List Char := "line one line two".data

def c7Expected : Json :=
  Json.arr [Json.obj [(['a'], Json.str c7JoinedValue)]]

def c8CounterInput : String := "``` no brackets here ```"

def c8NoBracketSample : String := "hello world"

/-- The diagnostic message produced when every strategy fails and the
classifier lands in the no bracket branch. -/
def c8Msg (et : ExpectedType) : String :=
  failPreamble ++ noBracketMsg et ++ firstErrorLit ++ (strategyLabel 1 ++ noJsonFoundMsg)

/-- The diagnostic message produced for the markdown classifier branch. -/
def c8CounterMsg : String :=
  failPreamble ++ mdBlocksMsg ++ firstErrorLit ++ (strategyLabel 1 ++ noJsonFoundMsg)

def bracketFoundLit : List Char := "bracket found in response".data

/-! ## Helper lemmas: updates and scans over the pool -/

theorem length_updateAt {α : Type} (l : List α) (i : Nat) (f : α → α) :
    (updateAt l i f).length = l.length := by
  induction l generalizing i with
  | nil => rfl
  | cons a t ih =>
    cases i with
    | zero => rfl
    | succ n => simp [updateAt, ih]

theorem getElem?_updateAt {α : Type} (l : List α) (i j : Nat) (f : α → α) :
    (updateAt l i f)[j]? = if i = j then (l[j]?).map f else l[j]? := by
  induction l generalizing i j with
  | nil => simp [updateAt]
  | cons a t ih =>
    cases i with
    | zero =>
      cases j with
      | zero => simp [updateAt]
      | succ m => simp [updateAt]
    | succ n =>
      cases j with
      | zero => simp [updateAt]
      | succ m =>
        simp only [updateAt, List.getElem?_cons_succ, ih n m]
        by_cases h : n = m
        · simp [h]
        · simp [h, fun hc => h (Nat.succ_injective hc)]

theorem mem_updateAt {α : Type} {x : α} {l : List α} {i : Nat} {f : α → α}
    (hx : x ∈ updateAt l i f) : x ∈ l ∨ ∃ y ∈ l, x = f y := by
  induction l generalizing i with
  | nil => simp [updateAt] at hx
  | cons a t ih =>
    cases i with
    | zero =>
      rcases List.mem_cons.mp hx with h | h
      · exact Or.inr ⟨a, List.mem_cons_self a t, h⟩
      · exact Or.inl (List.mem_cons_of_mem a h)
    | succ n =>
      rcases List.mem_cons.mp hx with h | h
      · exact Or.inl (h ▸ List.mem_cons_self a t)
      · rcases ih h with h2 | ⟨y, hy, hxy⟩
        · exact Or.inl (List.mem_cons_of_mem a h2)
        · exact Or.inr ⟨y, List.mem_cons_of_mem a hy, hxy⟩

theorem scanActiveAux_at (states : List ApiKeyState) (idx : Nat) (st : ApiKeyState) (r : Nat)
    (hg : states[idx]? = some st) (ha : st.isActive = true) :
    scanActiveAux states idx (r + 1) = some (idx, st) := by
  unfold scanActiveAux
  rw [hg]
  simp [ha]

theorem scanActiveAux_none (states : List ApiKeyState)
    (h : ∀ st ∈ states, st.isActive = false) :
    ∀ r idx, scanActiveAux states idx r = none := by
  intro r
  induction r with
  | zero => intro idx; rfl
  | succ n ih =>
    intro idx
    unfold scanActiveAux
    cases hg : states[idx]? with
    | none => rfl
    | some st =>
      have hst : st.isActive = false := h st (List.getElem?_mem hg)
      simp [hst, ih]

theorem scanActiveAux_some (states : List ApiKeyState) :
    ∀ r idx i st, scanActiveAux states idx r = some (i, st) →
      states[i]? = some st ∧ st.isActive = true := by
  intro r
  induction r with
  | zero => intro idx i st h; simp [scanActiveAux] at h
  | succ n ih =>
    intro idx i st h
    unfold scanActiveAux at h
    cases hg : states[idx]? with
    | none => rw [hg] at h; simp at h
    | some st2 =>
      rw [hg] at h
      cases hact : st2.isActive with
      | true =>
        simp only [hact] at h
        simp at h
        obtain ⟨h1, h2⟩ := h
        subst h1; subst h2
        exact ⟨hg, hact⟩
      | false =>
        simp only [hact] at h
        simp at h
        exact ih _ i st h

/-- One step unfolding of the bounded selection recursion. -/
theorem getNextAux_succ (fuel : Nat) (s : PoolState) (now : Nat) :
    getNextGeminiKeyAux (fuel + 1) s now =
      (if s.states.length = 0 then Except.error noKeysMsg
       else
         match scanActive s.states s.currentKeyIndex with
         | some (i, st) =>
           Except.ok (st.key, i,
             ⟨updateAt s.states i (selUpdate now), (i + 1) % s.states.length⟩)
         | none => getNextGeminiKeyAux fuel (resetAllKeys s) now) := rfl

/-- A selection from an active entry under the cursor: the source
selects exactly that entry, bumps its usage data and advances the
cursor past it. -/
theorem getNext_select (s : PoolState) (now : Nat) (st : ApiKeyState)
    (hg : s.states[s.currentKeyIndex]? = some st) (ha : st.isActive = true) :
    getNextGeminiKey s now = Except.ok (st.key, s.currentKeyIndex,
      ⟨updateAt s.states s.currentKeyIndex (selUpdate now),
       (s.currentKeyIndex + 1) % s.states.length⟩) := by
  have hcur : s.currentKeyIndex < s.states.length := (List.getElem?_eq_some.mp hg).1
  have hlen : s.states.length ≠ 0 := Nat.not_eq_zero_of_lt hcur
  obtain ⟨r, hr⟩ : ∃ r, s.states.length = r + 1 := ⟨s.states.length - 1, by omega⟩
  have hscan : scanActive s.states s.currentKeyIndex = some (s.currentKeyIndex, st) := by
    unfold scanActive
    rw [hr]
    exact scanActiveAux_at _ _ _ _ hg ha
  show getNextGeminiKeyAux 2 s now = _
  rw [show (2 : Nat) = 1 + 1 from rfl, getNextAux_succ, if_neg hlen, hscan]

theorem getNextAux_of_scan_some (fuel : Nat) (s : PoolState) (now : Nat) (i : Nat)
    (st : ApiKeyState) (hlen : s.states.length ≠ 0)
    (hscan : scanActive s.states s.currentKeyIndex = some (i, st)) :
    getNextGeminiKeyAux (fuel + 1) s now = Except.ok (st.key, i,
      ⟨updateAt s.states i (selUpdate now), (i + 1) % s.states.length⟩) := by
  rw [getNextAux_succ, if_neg hlen, hscan]

theorem getNextAux_of_scan_none (fuel : Nat) (s : PoolState) (now : Nat)
    (hlen : s.states.length ≠ 0)
    (hscan : scanActive s.states s.currentKeyIndex = none) :
    getNextGeminiKeyAux (fuel + 1) s now = getNextGeminiKeyAux fuel (resetAllKeys s) now := by
  rw [getNextAux_succ, if_neg hlen, hscan]

theorem resetAllKeys_getElem? (s : PoolState) (j : Nat) :
    (resetAllKeys s).states[j]? =
      (s.states[j]?).map (fun st => { st with isActive := true, errorCount := 0 }) := by
  simp [resetAllKeys]

theorem resetAllKeys_length (s : PoolState) :
    (resetAllKeys s).states.length = s.states.length := by
  simp [resetAllKeys]

/-- The reset path: when the scan finds no active credential, the
selection resets the pool and selects the entry under the cursor. -/
theorem getNext_reset_select (s : PoolState) (now : Nat) (st : ApiKeyState)
    (hscan1 : scanActive s.states s.currentKeyIndex = none)
    (hg : s.states[s.currentKeyIndex]? = some st) :
    getNextGeminiKey s now = Except.ok (st.key, s.currentKeyIndex,
      ⟨updateAt (resetAllKeys s).states s.currentKeyIndex (selUpdate now),
       (s.currentKeyIndex + 1) % s.states.length⟩) := by
  have hc : s.currentKeyIndex < s.states.length := (List.getElem?_eq_some.mp hg).1
  have hlen : s.states.length ≠ 0 := Nat.not_eq_zero_of_lt hc
  have hg2 : (resetAllKeys s).states[(resetAllKeys s).currentKeyIndex]? =
      some { st with isActive := true, errorCount := 0 } := by
    show (resetAllKeys s).states[s.currentKeyIndex]? = _
    rw [resetAllKeys_getElem?, hg]
    rfl
  have hlen2 : (resetAllKeys s).states.length ≠ 0 := by
    rw [resetAllKeys_length]; exact hlen
  obtain ⟨r, hr⟩ : ∃ r, (resetAllKeys s).states.length = r + 1 :=
    ⟨(resetAllKeys s).states.length - 1, by rw [resetAllKeys_length]; omega⟩
  have hscan2 : scanActive (resetAllKeys s).states (resetAllKeys s).currentKeyIndex =
      some ((resetAllKeys s).currentKeyIndex, { st with isActive := true, errorCount := 0 }) := by
    unfold scanActive
    rw [hr]
    exact scanActiveAux_at _ _ _ _ hg2 rfl
  calc getNextGeminiKey s now
      = getNextGeminiKeyAux (1 + 1) s now := rfl
    _ = getNextGeminiKeyAux 1 (resetAllKeys s) now :=
        getNextAux_of_scan_none 1 s now hlen hscan1
    _ = getNextGeminiKeyAux (0 + 1) (resetAllKeys s) now := rfl
    _ = Except.ok (({ st with isActive := true, errorCount := 0 } : ApiKeyState).key,
          (resetAllKeys s).currentKeyIndex,
          ⟨updateAt (resetAllKeys s).states (resetAllKeys s).currentKeyIndex (selUpdate now),
           ((resetAllKeys s).currentKeyIndex + 1) % (resetAllKeys s).states.length⟩) :=
        getNextAux_of_scan_some 0 (resetAllKeys s) now _ _ hlen2 hscan2
    _ = Except.ok (st.key, s.currentKeyIndex,
          ⟨updateAt (resetAllKeys s).states s.currentKeyIndex (selUpdate now),
           (s.currentKeyIndex + 1) % s.states.length⟩) := by
        rw [resetAllKeys_length]; rfl

/-- The amnesty path: with every credential inactive, the selection
resets the pool and selects the entry under the cursor. -/
theorem getNext_amnesty (s : PoolState) (now : Nat) (st : ApiKeyState)
    (hall : ∀ x ∈ s.states, x.isActive = false)
    (hg : s.states[s.currentKeyIndex]? = some st) :
    getNextGeminiKey s now = Except.ok (st.key, s.currentKeyIndex,
      ⟨updateAt (resetAllKeys s).states s.currentKeyIndex (selUpdate now),
       (s.currentKeyIndex + 1) % s.states.length⟩) :=
  getNext_reset_select s now st (scanActiveAux_none _ hall _ _) hg

/-! ## Helper lemmas: marking outcomes -/

theorem markKeyError_getElem?_self (s : PoolState) (i : Nat) (msg : String) (st : ApiKeyState)
    (hg : s.states[i]? = some st) :
    (markKeyError s i msg).states[i]? = some (errF msg st) := by
  have hi : i < s.states.length := (List.getElem?_eq_some.mp hg).1
  simp [markKeyError, hi, getElem?_updateAt, hg]

theorem markKeySuccess_getElem?_self (s : PoolState) (i : Nat) (st : ApiKeyState)
    (hg : s.states[i]? = some st) :
    (markKeySuccess s i).states[i]? = some (succF st) := by
  have hi : i < s.states.length := (List.getElem?_eq_some.mp hg).1
  simp [markKeySuccess, hi, getElem?_updateAt, hg]

theorem markKeyError_length (s : PoolState) (i : Nat) (msg : String) :
    (markKeyError s i msg).states.length = s.states.length := by
  unfold markKeyError
  split <;> simp [length_updateAt]

theorem markKeyError_cursor (s : PoolState) (i : Nat) (msg : String) :
    (markKeyError s i msg).currentKeyIndex = s.currentKeyIndex := by
  unfold markKeyError
  split <;> rfl

theorem markKeySuccess_length (s : PoolState) (i : Nat) :
    (markKeySuccess s i).states.length = s.states.length := by
  unfold markKeySuccess
  split <;> simp [length_updateAt]

theorem markKeySuccess_cursor (s : PoolState) (i : Nat) :
    (markKeySuccess s i).currentKeyIndex = s.currentKeyIndex := by
  unfold markKeySuccess
  split <;> rfl

/-! ## Helper lemmas: the three strikes invariant -/

theorem keyInvariant_errF (msg : String) (st : ApiKeyState) : KeyInvariant (errF msg st) := by
  intro h
  simp only [errF] at h ⊢
  rw [if_pos h]

theorem keyInvariant_succF (st : ApiKeyState) : KeyInvariant (succF st) := by
  intro h
  simp [succF] at h

theorem keyInvariant_selUpdate (now : Nat) (st : ApiKeyState) (h : KeyInvariant st) :
    KeyInvariant (selUpdate now st) := by
  intro h3
  exact h h3

theorem keyInvariant_resetEntry (st : ApiKeyState) :
    KeyInvariant ({ st with isActive := true, errorCount := 0 }) := by
  intro h
  simp at h

theorem poolInvariant_markKeyError (s : PoolState) (i : Nat) (msg : String)
    (h : PoolInvariant s) : PoolInvariant (markKeyError s i msg) := by
  unfold markKeyError
  split
  · intro st hst
    rcases mem_updateAt hst with hm | ⟨y, hy, hxy⟩
    · exact h st hm
    · exact hxy ▸ keyInvariant_errF msg y
  · exact h

theorem poolInvariant_markKeySuccess (s : PoolState) (i : Nat)
    (h : PoolInvariant s) : PoolInvariant (markKeySuccess s i) := by
  unfold markKeySuccess
  split
  · intro st hst
    rcases mem_updateAt hst with hm | ⟨y, hy, hxy⟩
    · exact h st hm
    · exact hxy ▸ keyInvariant_succF y
  · exact h

theorem poolInvariant_resetAllKeys (s : PoolState) : PoolInvariant (resetAllKeys s) := by
  intro st hst
  rcases List.mem_map.mp hst with ⟨y, _, hxy⟩
  exact hxy ▸ keyInvariant_resetEntry y

theorem poolInvariant_getNextAux :
    ∀ fuel (s : PoolState) (now : Nat) r, getNextGeminiKeyAux fuel s now = Except.ok r →
      PoolInvariant s → PoolInvariant r.2.2 := by
  intro fuel
  induction fuel with
  | zero => intro s now r h; simp [getNextGeminiKeyAux] at h
  | succ n ih =>
    intro s now r h hinv
    rw [getNextAux_succ] at h
    by_cases hlen : s.states.length = 0
    · rw [if_pos hlen] at h; simp at h
    · rw [if_neg hlen] at h
      cases hscan : scanActive s.states s.currentKeyIndex with
      | some p =>
        obtain ⟨i, st⟩ := p
        rw [hscan] at h
        simp at h
        rw [← h]
        intro x hx
        rcases mem_updateAt hx with hm | ⟨y, hy, hxy⟩
        · exact hinv x hm
        · exact hxy ▸ keyInvariant_selUpdate now y (hinv y hy)
      | none =>
        rw [hscan] at h
        exact ih _ _ _ h (poolInvariant_resetAllKeys s)

theorem poolInvariant_getNext (s : PoolState) (now : Nat) (r : String × Nat × PoolState)
    (h : getNextGeminiKey s now = Except.ok r) (hinv : PoolInvariant s) :
    PoolInvariant r.2.2 :=
  poolInvariant_getNextAux 2 s now r h hinv

theorem poolInvariant_configure (keys : List String) (s0 : PoolState)
    (h : setGeminiApiKeys keys = Except.ok s0) : PoolInvariant s0 := by
  simp only [setGeminiApiKeys] at h
  split at h
  · simp at h
  · simp at h
    rw [← h]
    intro st hst
    rcases List.mem_map.mp hst with ⟨k, _, hk⟩
    intro h3
    rw [← hk] at h3
    simp [freshKeyState] at h3

theorem poolInvariant_applyOp (s : PoolState) (op : PoolOp) (h : PoolInvariant s) :
    PoolInvariant (applyOp s op) := by
  cases op with
  | configure keys =>
    simp only [applyOp]
    cases hc : setGeminiApiKeys keys with
    | ok s2 => exact poolInvariant_configure keys s2 hc
    | error e => exact h
  | select now =>
    simp only [applyOp]
    cases hg : getNextGeminiKey s now with
    | ok r => exact poolInvariant_getNext s now r hg h
    | error e => exact h
  | error i m => exact poolInvariant_markKeyError s i m h
  | success i => exact poolInvariant_markKeySuccess s i h

theorem poolInvariant_applyOps (ops : List PoolOp) :
    ∀ (s : PoolState), PoolInvariant s → PoolInvariant (applyOps s ops) := by
  induction ops with
  | nil => intro s h; exact h
  | cons op rest ih =>
    intro s h
    exact ih (applyOp s op) (poolInvariant_applyOp s op h)

theorem statsAux_map_lastError :
    ∀ (l : List ApiKeyState) (i : Nat),
      (statsAux i l).map (fun e => e.lastError) = l.map (fun st => st.lastError) := by
  intro l
  induction l with
  | nil => intro i; rfl
  | cons a t ih => intro i; simp [statsAux, statEntry, ih]

theorem map_lastError_updateAt_selUpdate (l : List ApiKeyState) (i now : Nat) :
    (updateAt l i (selUpdate now)).map (fun st => st.lastError) =
      l.map (fun st => st.lastError) := by
  induction l generalizing i with
  | nil => rfl
  | cons a t ih =>
    cases i with
    | zero => simp [updateAt, selUpdate]
    | succ n => simp [updateAt, ih]

/-! ## Claim C1 -/

/-- C1: from any successfully configured pool, every sequence of
configure, selection, markKeyError and markKeySuccess operations keeps
every credential satisfying errorCount at least 3 implies inactive;
moreover markKeyError on a valid index increments the errorCount of that entry, stores the message as lastError and deactivates exactly
when the new count reaches 3, and markKeySuccess on a valid index
resets errorCount to 0 and clears lastError, leaving all other fields
unchanged. -/
theorem C1_pool_invariant (keys : List String) (s0 : PoolState) (ops : List PoolOp)
    (hconf : setGeminiApiKeys keys = Except.ok s0) :
    PoolInvariant (applyOps s0 ops)
    ∧ (∀ (s : PoolState) (i : Nat) (msg : String) (st : ApiKeyState),
        i < s.states.length → s.states[i]? = some st →
        (markKeyError s i msg).states[i]? = some
          ⟨st.key, st.usageCount, st.errorCount + 1, some msg, st.lastUsedAt,
           if 3 ≤ st.errorCount + 1 then false else st.isActive⟩)
    ∧ (∀ (s : PoolState) (i : Nat) (st : ApiKeyState),
        i < s.states.length → s.states[i]? = some st →
        (markKeySuccess s i).states[i]? = some
          ⟨st.key, st.usageCount, 0, none, st.lastUsedAt, st.isActive⟩) := by
  refine ⟨poolInvariant_applyOps ops s0 (poolInvariant_configure keys s0 hconf), ?_, ?_⟩
  · intro s i msg st _ hg
    exact markKeyError_getElem?_self s i msg st hg
  · intro s i st _ hg
    exact markKeySuccess_getElem?_self s i st hg

theorem C1_pool_invariant_witness :
    setGeminiApiKeys wKeysA = Except.ok wPoolA ∧ PoolInvariant (applyOps wPoolA wOpsA) :=
  ⟨rfl, (C1_pool_invariant wKeysA wPoolA wOpsA rfl).1⟩

/-! ## Claim C2 -/

/-- C2: on a non empty pool whose credentials are all inactive, the
next selection succeeds, and afterwards every credential of the pool is
active with errorCount 0, the pool size being unchanged. -/
theorem C2_pool_exhaustion_amnesty (s : PoolState) (now : Nat)
    (hc : s.currentKeyIndex < s.states.length)
    (hall : ∀ st ∈ s.states, st.isActive = false) :
    ∃ k i s2, getNextGeminiKey s now = Except.ok (k, i, s2)
      ∧ s2.states.length = s.states.length
      ∧ (∀ st ∈ s2.states, st.isActive = true ∧ st.errorCount = 0) := by
  obtain ⟨st, hst⟩ : ∃ st, s.states[s.currentKeyIndex]? = some st :=
    ⟨_, List.getElem?_eq_getElem hc⟩
  refine ⟨st.key, s.currentKeyIndex, _, getNext_amnesty s now st hall hst, ?_, ?_⟩
  · show (updateAt (resetAllKeys s).states s.currentKeyIndex (selUpdate now)).length = _
    rw [length_updateAt, resetAllKeys_length]
  · intro x hx
    rcases mem_updateAt hx with hm | ⟨y, hy, hxy⟩
    · obtain ⟨z, _, rfl⟩ := List.mem_map.mp hm
      exact ⟨rfl, rfl⟩
    · obtain ⟨z, _, rfl⟩ := List.mem_map.mp hy
      subst hxy
      exact ⟨rfl, rfl⟩

theorem C2_pool_exhaustion_amnesty_witness :
    wDeadPool.currentKeyIndex < wDeadPool.states.length ∧
    (∃ k i s2, getNextGeminiKey wDeadPool 99 = Except.ok (k, i, s2)
      ∧ s2.states.length = wDeadPool.states.length
      ∧ (∀ st ∈ s2.states, st.isActive = true ∧ st.errorCount = 0)) :=
  ⟨by decide, C2_pool_exhaustion_amnesty wDeadPool 99 (by decide) (by decide)⟩

/-! ## Helper lemmas and claim for rotation fairness (C3) -/

theorem count_range_self (n j : Nat) (hj : j < n) : (List.range n).count j = 1 :=
  List.count_eq_one_of_mem (List.nodup_range n) (List.mem_range.mpr hj)

theorem count_range_mod (n q j : Nat) (hj : j < n) :
    ((List.range (q * n)).map (fun k => k % n)).count j = q := by
  induction q with
  | zero => simp
  | succ p ih =>
    have hmul : (p + 1) * n = p * n + n := by ring
    rw [hmul, List.range_add, List.map_append, List.count_append, ih]
    have h2 : (List.range n).map (fun k => (p * n + k) % n) = List.range n := by
      have hpt : ∀ k ∈ List.range n, (fun k => (p * n + k) % n) k = id k := by
        intro k hk
        rw [List.mem_range] at hk
        show (p * n + k) % n = k
        rw [Nat.add_comm, Nat.add_mul_mod_self_right]
        exact Nat.mod_eq_of_lt hk
      rw [List.map_congr_left hpt, List.map_id]
    have h3 : (List.range n).map (fun k => (p * n + k) % n) =
        (List.range n).map ((fun k => k % n) ∘ (fun k => p * n + k)) := rfl
    rw [List.map_map, ← h3, h2, count_range_self n j hj]

/-- The generalized rotation run: from any all active pool with a valid
cursor, m failure free selections pick the cyclically consecutive
indices starting at the cursor, advance the cursor by m modulo the pool
size, keep every credential active, and add to the usageCount of each credential exactly the number of times it was selected, leaving key,
errorCount and lastError untouched. -/
theorem runSelections_spec (ts : List Nat) :
    ∀ (s : PoolState), s.states.length ≠ 0 → s.currentKeyIndex < s.states.length →
      (∀ st ∈ s.states, st.isActive = true) →
      (runSelections s ts).1 =
        (List.range ts.length).map (fun k => (s.currentKeyIndex + k) % s.states.length)
      ∧ (runSelections s ts).2.states.length = s.states.length
      ∧ (runSelections s ts).2.currentKeyIndex =
          (s.currentKeyIndex + ts.length) % s.states.length
      ∧ (∀ st ∈ (runSelections s ts).2.states, st.isActive = true)
      ∧ (∀ j st, s.states[j]? = some st →
          ∃ st2, (runSelections s ts).2.states[j]? = some st2 ∧
            st2.key = st.key ∧ st2.errorCount = st.errorCount ∧
            st2.lastError = st.lastError ∧ st2.isActive = st.isActive ∧
            st2.usageCount = st.usageCount + (runSelections s ts).1.count j) := by
  induction ts with
  | nil =>
    intro s hn hc hact
    refine ⟨rfl, rfl, ?_, hact, ?_⟩
    · show s.currentKeyIndex = (s.currentKeyIndex + 0) % s.states.length
      rw [Nat.add_zero, Nat.mod_eq_of_lt hc]
    · intro j st hg
      exact ⟨st, hg, rfl, rfl, rfl, rfl, rfl⟩
  | cons t ts ih =>
    intro s hn hc hact
    obtain ⟨st, hst⟩ : ∃ st, s.states[s.currentKeyIndex]? = some st :=
      ⟨_, List.getElem?_eq_getElem hc⟩
    have hsel := getNext_select s t st hst (hact st (List.getElem?_mem hst))
    have hrun : runSelections s (t :: ts) =
        (s.currentKeyIndex ::
          (runSelections ⟨updateAt s.states s.currentKeyIndex (selUpdate t),
            (s.currentKeyIndex + 1) % s.states.length⟩ ts).1,
         (runSelections ⟨updateAt s.states s.currentKeyIndex (selUpdate t),
            (s.currentKeyIndex + 1) % s.states.length⟩ ts).2) := by
      have h0 : runSelections s (t :: ts) =
          (match getNextGeminiKey s t with
           | Except.ok r => (r.2.1 :: (runSelections r.2.2 ts).1, (runSelections r.2.2 ts).2)
           | Except.error _ => ([], s)) := rfl
      rw [h0, hsel]
    have hlen1 : (updateAt s.states s.currentKeyIndex (selUpdate t)).length =
        s.states.length := length_updateAt _ _ _
    have hn1 : (updateAt s.states s.currentKeyIndex (selUpdate t)).length ≠ 0 := by
      rw [hlen1]; exact hn
    have hc1 : (s.currentKeyIndex + 1) % s.states.length <
        (updateAt s.states s.currentKeyIndex (selUpdate t)).length := by
      rw [hlen1]; exact Nat.mod_lt _ (Nat.pos_of_ne_zero hn)
    have hact1 : ∀ x ∈ updateAt s.states s.currentKeyIndex (selUpdate t),
        x.isActive = true := by
      intro x hx
      rcases mem_updateAt hx with hm | ⟨y, hy, hxy⟩
      · exact hact x hm
      · rw [hxy]; exact hact y hy
    obtain ⟨ihsel, ihlen, ihcur, ihact, ihusage⟩ :=
      ih ⟨updateAt s.states s.currentKeyIndex (selUpdate t),
        (s.currentKeyIndex + 1) % s.states.length⟩ hn1 hc1 hact1
    rw [hrun]
    refine ⟨?_, ?_, ?_, ihact, ?_⟩
    · show s.currentKeyIndex :: _ = _
      rw [ihsel]
      show s.currentKeyIndex ::
          (List.range ts.length).map
            (fun k => ((s.currentKeyIndex + 1) % s.states.length + k) %
              (updateAt s.states s.currentKeyIndex (selUpdate t)).length) = _
      rw [hlen1, List.length_cons, List.range_succ_eq_map, List.map_cons, List.map_map]
      have hfun : ((fun k => (s.currentKeyIndex + k) % s.states.length) ∘ (· + 1)) =
          fun k => ((s.currentKeyIndex + 1) % s.states.length + k) % s.states.length := by
        funext k
        show (s.currentKeyIndex + (k + 1)) % s.states.length = _
        rw [Nat.mod_add_mod]
        congr 1
        omega
      rw [hfun]
      simp [Nat.mod_eq_of_lt hc]
    · rw [ihlen, hlen1]
    · rw [ihcur, hlen1, Nat.mod_add_mod, List.length_cons]
      congr 1
      omega
    · intro j st0 hg
      by_cases hj : s.currentKeyIndex = j
      · subst hj
        have hst0 : st0 = st := by
          rw [hst] at hg
          exact (Option.some_injective _ hg).symm
        subst hst0
        have hg1 : (updateAt s.states s.currentKeyIndex (selUpdate t))[s.currentKeyIndex]? =
            some (selUpdate t st0) := by
          rw [getElem?_updateAt, if_pos rfl, hst]
          rfl
        obtain ⟨st2, hst2, hk, he, hl, ha, hu⟩ := ihusage s.currentKeyIndex (selUpdate t st0) hg1
        refine ⟨st2, hst2, hk, he, hl, ha, ?_⟩
        rw [hu, List.count_cons_self]
        show (selUpdate t st0).usageCount + _ = _
        simp [selUpdate]
        omega
      · have hg1 : (updateAt s.states s.currentKeyIndex (selUpdate t))[j]? = some st0 := by
          rw [getElem?_updateAt, if_neg hj, hg]
        obtain ⟨st2, hst2, hk, he, hl, ha, hu⟩ := ihusage j st0 hg1
        refine ⟨st2, hst2, hk, he, hl, ha, ?_⟩
        rw [hu, List.count_cons_of_ne (fun hc2 => hj hc2.symm)]

/-- A freshly configured pool: the states are the fresh entries of the
trimmed valid keys and the cursor is 0. -/
theorem configure_fresh (keys : List String) (s0 : PoolState)
    (h : setGeminiApiKeys keys = Except.ok s0) :
    s0.states = (keys.filter (fun k => jsTrim k ≠ "")).map freshKeyState ∧
      s0.currentKeyIndex = 0 ∧ s0.states.length ≠ 0 ∧
      (∀ st ∈ s0.states, st.isActive = true ∧ st.usageCount = 0) := by
  simp only [setGeminiApiKeys] at h
  split at h
  · exact absurd h (by simp)
  · rename_i hv
    injection h with h
    refine ⟨by rw [← h], by rw [← h], ?_, ?_⟩
    · rw [← h]
      show (List.map freshKeyState _).length ≠ 0
      rw [List.length_map]
      exact hv
    · intro st hst
      rw [← h] at hst
      rcases List.mem_map.mp hst with ⟨k, _, hk⟩
      exact ⟨by rw [← hk]; rfl, by rw [← hk]; rfl⟩

/-- C3: on a freshly configured pool of N credentials, M failure free
selections with M a multiple of N pick the credentials in cyclic order
starting from the first configured one, select each credential exactly
M over N times, leave the cursor back at 0 and the usageCount of every credential at M over N; and each single selection from an active entry
under the cursor increments exactly the usageCount of that entry, sets its
lastUsedAt and advances the cursor past it modulo N. -/
theorem C3_rotation_fairness (keys : List String) (s0 : PoolState) (q : Nat) (ts : List Nat)
    (hconf : setGeminiApiKeys keys = Except.ok s0)
    (hlen : ts.length = q * s0.states.length) :
    (runSelections s0 ts).1 =
      (List.range ts.length).map (fun k => k % s0.states.length)
    ∧ (∀ j, j < s0.states.length → (runSelections s0 ts).1.count j = q)
    ∧ (runSelections s0 ts).2.currentKeyIndex = 0
    ∧ (∀ (j : Nat) (st : ApiKeyState), s0.states[j]? = some st →
        ∃ st2 : ApiKeyState, (runSelections s0 ts).2.states[j]? = some st2 ∧
          st2.usageCount = q ∧ st2.key = st.key ∧ st2.isActive = true ∧
          st2.errorCount = 0)
    ∧ (∀ (s : PoolState) (t : Nat) (st : ApiKeyState),
        s.states[s.currentKeyIndex]? = some st → st.isActive = true →
        getNextGeminiKey s t = Except.ok (st.key, s.currentKeyIndex,
          ⟨updateAt s.states s.currentKeyIndex (selUpdate t),
           (s.currentKeyIndex + 1) % s.states.length⟩)) := by
  obtain ⟨hfresh, hcur0, hn, hall⟩ := configure_fresh keys s0 hconf
  have hc : s0.currentKeyIndex < s0.states.length := by
    rw [hcur0]; exact Nat.pos_of_ne_zero hn
  have hact : ∀ st ∈ s0.states, st.isActive = true := fun st hst => (hall st hst).1
  obtain ⟨hsel, hlen2, hcur, hact2, husage⟩ := runSelections_spec ts s0 hn hc hact
  have hsel0 : (runSelections s0 ts).1 =
      (List.range ts.length).map (fun k => k % s0.states.length) := by
    rw [hsel, hcur0]
    simp
  refine ⟨hsel0, ?_, ?_, ?_, ?_⟩
  · intro j hj
    rw [hsel0, hlen, count_range_mod _ _ _ hj]
  · rw [hcur, hcur0, hlen, Nat.zero_add, Nat.mul_mod_left]
  · intro j st hg
    obtain ⟨st2, hst2, hk, he, _, ha, hu⟩ := husage j st hg
    have hmem : st ∈ s0.states := List.getElem?_mem hg
    refine ⟨st2, hst2, ?_, hk, ?_, ?_⟩
    · rw [hu, (hall st hmem).2, Nat.zero_add, hsel0, hlen]
      have hj : j < s0.states.length := (List.getElem?_eq_some.mp hg).1
      exact count_range_mod _ _ _ hj
    · rw [ha]; exact hact st hmem
    · rw [he]
      have : st ∈ s0.states := hmem
      rw [hfresh] at this
      rcases List.mem_map.mp this with ⟨k, _, hk2⟩
      rw [← hk2]
      rfl
  · intro s t st hg ha
    exact getNext_select s t st hg ha

theorem C3_rotation_fairness_witness :
    setGeminiApiKeys wKeysB = Except.ok wPoolB ∧
    wTsB.length = 2 * wPoolB.states.length ∧
    (runSelections wPoolB wTsB).1 =
      (List.range wTsB.length).map (fun k => k % wPoolB.states.length) :=
  ⟨rfl, rfl, (C3_rotation_fairness wKeysB wPoolB 2 wTsB rfl rfl).1⟩

/-! ## Claim C10 -/

/-- C10: the full pool reset touches only isActive and errorCount;
key, usageCount, lastError and lastUsedAt of every entry are unchanged,
so the lastError column of getApiKeyStats is identical before and after
the reset, and also after the full selection call that performs the
reset on an all inactive pool. -/
theorem C10_reset_frame (s : PoolState) :
    ((resetAllKeys s).states.map (fun st => st.key) = s.states.map (fun st => st.key))
    ∧ ((resetAllKeys s).states.map (fun st => st.usageCount) =
        s.states.map (fun st => st.usageCount))
    ∧ ((resetAllKeys s).states.map (fun st => st.lastError) =
        s.states.map (fun st => st.lastError))
    ∧ ((resetAllKeys s).states.map (fun st => st.lastUsedAt) =
        s.states.map (fun st => st.lastUsedAt))
    ∧ ((resetAllKeys s).states.map (fun st => st.isActive) = s.states.map (fun _ => true))
    ∧ ((resetAllKeys s).states.map (fun st => st.errorCount) = s.states.map (fun _ => 0))
    ∧ ((getApiKeyStats (resetAllKeys s)).map (fun e => e.lastError) =
        (getApiKeyStats s).map (fun e => e.lastError))
    ∧ (∀ (now : Nat) (st : ApiKeyState),
        (∀ x ∈ s.states, x.isActive = false) →
        s.states[s.currentKeyIndex]? = some st →
        ∃ s2, getNextGeminiKey s now = Except.ok (st.key, s.currentKeyIndex, s2) ∧
          (getApiKeyStats s2).map (fun e => e.lastError) =
            (getApiKeyStats s).map (fun e => e.lastError)) := by
  have hle : (resetAllKeys s).states.map (fun st => st.lastError) =
      s.states.map (fun st => st.lastError) := by
    simp only [resetAllKeys, List.map_map]
    rfl
  refine ⟨?_, ?_, hle, ?_, ?_, ?_, ?_, ?_⟩
  · simp only [resetAllKeys, List.map_map]; rfl
  · simp only [resetAllKeys, List.map_map]; rfl
  · simp only [resetAllKeys, List.map_map]; rfl
  · simp only [resetAllKeys, List.map_map]; rfl
  · simp only [resetAllKeys, List.map_map]; rfl
  · rw [getApiKeyStats, getApiKeyStats, statsAux_map_lastError, statsAux_map_lastError]
    exact hle
  · intro now st hall hst
    refine ⟨_, getNext_amnesty s now st hall hst, ?_⟩
    show (getApiKeyStats
        (⟨updateAt (resetAllKeys s).states s.currentKeyIndex (selUpdate now),
          (s.currentKeyIndex + 1) % s.states.length⟩ : PoolState)).map (fun e => e.lastError) = _
    rw [getApiKeyStats, getApiKeyStats, statsAux_map_lastError, statsAux_map_lastError]
    show (updateAt (resetAllKeys s).states s.currentKeyIndex (selUpdate now)).map
        (fun st => st.lastError) = _
    rw [map_lastError_updateAt_selUpdate]
    exact hle

theorem C10_reset_frame_witness :
    wDeadPool.states[wDeadPool.currentKeyIndex]? = some wDeadEntry ∧
    (∃ s2, getNextGeminiKey wDeadPool 5 =
        Except.ok (wDeadEntry.key, wDeadPool.currentKeyIndex, s2) ∧
      (getApiKeyStats s2).map (fun e => e.lastError) =
        (getApiKeyStats wDeadPool).map (fun e => e.lastError)) :=
  ⟨rfl, (C10_reset_frame wDeadPool).2.2.2.2.2.2.2 5 wDeadEntry (by decide) rfl⟩

/-! ## Helper lemmas: the retry loop of callGeminiAPI -/

theorem attemptStep_cases (s : PoolState) (i : Nat) (o : FetchOutcome) (b : Bool) :
    (∃ m, (attemptStep s i o b).1 = markKeyError s i m) ∨
    (attemptStep s i o b).1 = markKeySuccess s i := by
  cases o with
  | httpError status msg =>
    simp only [attemptStep]
    split
    · exact Or.inl ⟨msg, rfl⟩
    · split
      · exact Or.inl ⟨msg, rfl⟩
      · split
        · exact Or.inl ⟨msg, rfl⟩
        · exact Or.inl ⟨msg, rfl⟩
  | ok body =>
    simp only [attemptStep]
    split
    · split
      · exact Or.inl ⟨_, rfl⟩
      · exact Or.inl ⟨_, rfl⟩
    · split
      · exact Or.inl ⟨_, rfl⟩
      · exact Or.inr rfl
  | exn msg => exact Or.inl ⟨msg, rfl⟩

theorem attemptStep_state (s : PoolState) (i : Nat) (o : FetchOutcome) (b : Bool) :
    (attemptStep s i o b).1.states.length = s.states.length ∧
    (attemptStep s i o b).1.currentKeyIndex = s.currentKeyIndex := by
  rcases attemptStep_cases s i o b with ⟨m, hm⟩ | hm <;> rw [hm]
  · exact ⟨markKeyError_length s i m, markKeyError_cursor s i m⟩
  · exact ⟨markKeySuccess_length s i, markKeySuccess_cursor s i⟩

theorem attemptStep_of_succeeds (s : PoolState) (i : Nat) (o : FetchOutcome) (b : Bool)
    (h : outcomeSucceeds o = true) :
    attemptStep s i o b = (markKeySuccess s i, AttemptResult.success (extractedText o)) := by
  cases o with
  | httpError status msg => simp [outcomeSucceeds] at h
  | exn msg => simp [outcomeSucceeds] at h
  | ok body =>
    simp only [outcomeSucceeds, Bool.and_eq_true] at h
    obtain ⟨h1, h2⟩ := h
    have h2e : ¬ body.text.getD emptyStr = emptyStr := by
      intro he
      rw [he] at h2
      simp at h2
    simp only [attemptStep, extractedText]
    rw [if_neg (by rw [h1]; exact fun hc => Bool.true_eq_false ▸ hc), if_neg h2e]

theorem attemptStep_of_fails (s : PoolState) (i : Nat) (o : FetchOutcome) (b : Bool)
    (h : outcomeSucceeds o = false) :
    ∃ s2 w, attemptStep s i o b = (s2, AttemptResult.failure w) := by
  cases o with
  | httpError status msg =>
    simp only [attemptStep]
    split
    · exact ⟨_, _, rfl⟩
    · split
      · exact ⟨_, _, rfl⟩
      · split
        · exact ⟨_, _, rfl⟩
        · exact ⟨_, _, rfl⟩
  | exn msg => exact ⟨_, _, rfl⟩
  | ok body =>
    simp only [attemptStep]
    split
    · split
      · exact ⟨_, _, rfl⟩
      · exact ⟨_, _, rfl⟩
    · rename_i hcc
      split
      · exact ⟨_, _, rfl⟩
      · rename_i hne
        exfalso
        have hcc2 : body.hasCandidateContent = true := by
          revert hcc
          cases body.hasCandidateContent <;> simp
        rw [outcomeSucceeds, hcc2] at h
        simp at h
        exact hne h

theorem getNext_ok (s : PoolState) (now : Nat)
    (hn : s.states.length ≠ 0) (hc : s.currentKeyIndex < s.states.length) :
    ∃ k i s2, getNextGeminiKey s now = Except.ok (k, i, s2) ∧
      s2.states.length = s.states.length ∧ s2.currentKeyIndex < s2.states.length := by
  cases hscan : scanActive s.states s.currentKeyIndex with
  | some p =>
    obtain ⟨i, st⟩ := p
    refine ⟨st.key, i, _, getNextAux_of_scan_some 1 s now i st hn hscan, ?_, ?_⟩
    · exact length_updateAt _ _ _
    · show (i + 1) % s.states.length < (updateAt s.states i (selUpdate now)).length
      rw [length_updateAt]
      exact Nat.mod_lt _ (Nat.pos_of_ne_zero hn)
  | none =>
    obtain ⟨st, hst⟩ : ∃ st, s.states[s.currentKeyIndex]? = some st :=
      ⟨_, List.getElem?_eq_getElem hc⟩
    refine ⟨st.key, s.currentKeyIndex, _, getNext_reset_select s now st hscan hst, ?_, ?_⟩
    · show (updateAt (resetAllKeys s).states s.currentKeyIndex (selUpdate now)).length = _
      rw [length_updateAt, resetAllKeys_length]
    · show (s.currentKeyIndex + 1) % s.states.length <
        (updateAt (resetAllKeys s).states s.currentKeyIndex (selUpdate now)).length
      rw [length_updateAt, resetAllKeys_length]
      exact Nat.mod_lt _ (Nat.pos_of_ne_zero hn)

theorem callLoop_zero (oracle : Nat → FetchOutcome) (time : Nat → Nat) (s : PoolState)
    (ac : Nat) : callLoop oracle time 0 s ac = (Except.error (exhaustMsg ac), s, ac) := rfl

/-- One loop iteration after a successful selection, written with the
selection result destructured. -/
theorem callLoop_step (oracle : Nat → FetchOutcome) (time : Nat → Nat) (fuel : Nat)
    (s : PoolState) (ac : Nat) (k : String) (i : Nat) (s2 : PoolState)
    (hg : getNextGeminiKey s (time (ac + 1)) = Except.ok (k, i, s2)) :
    callLoop oracle time (fuel + 1) s ac =
      (match attemptStep s2 i (oracle (ac + 1)) (fuel == 0) with
       | (s3, AttemptResult.success t) => (Except.ok t, s3, ac + 1)
       | (s3, AttemptResult.failure _) => callLoop oracle time fuel s3 (ac + 1)) := by
  rw [callLoop, hg]

theorem callLoop_gnkError (oracle : Nat → FetchOutcome) (time : Nat → Nat) (fuel : Nat)
    (s : PoolState) (ac : Nat) (e : String)
    (hg : getNextGeminiKey s (time (ac + 1)) = Except.error e) :
    callLoop oracle time (fuel + 1) s ac = (Except.error e, s, ac + 1) := by
  rw [callLoop, hg]

theorem callLoop_count_le (oracle : Nat → FetchOutcome) (time : Nat → Nat) :
    ∀ fuel (s : PoolState) (ac : Nat),
      (callLoop oracle time fuel s ac).2.2 ≤ ac + fuel := by
  intro fuel
  induction fuel with
  | zero => intro s ac; simp [callLoop_zero]
  | succ n ih =>
    intro s ac
    cases hg : getNextGeminiKey s (time (ac + 1)) with
    | error e =>
      rw [callLoop_gnkError oracle time n s ac e hg]
      show ac + 1 ≤ ac + (n + 1)
      omega
    | ok r =>
      obtain ⟨k, i, s2⟩ := r
      rw [callLoop_step oracle time n s ac k i s2 hg]
      rcases hstep : attemptStep s2 i (oracle (ac + 1)) (n == 0) with ⟨s3, res⟩
      cases res with
      | success t =>
        show ac + 1 ≤ ac + (n + 1)
        omega
      | failure w =>
        show (callLoop oracle time n s3 (ac + 1)).2.2 ≤ ac + (n + 1)
        have := ih s3 (ac + 1)
        omega

theorem callLoop_fail (oracle : Nat → FetchOutcome) (time : Nat → Nat) (L : Nat)
    (hL : L ≠ 0) :
    ∀ fuel (s : PoolState) (ac : Nat), s.states.length = L → s.currentKeyIndex < L →
      (∀ j, ac < j → j ≤ ac + fuel → outcomeSucceeds (oracle j) = false) →
      ∃ sf, callLoop oracle time fuel s ac =
        (Except.error (exhaustMsg (ac + fuel)), sf, ac + fuel) := by
  intro fuel
  induction fuel with
  | zero => intro s ac _ _ _; exact ⟨s, by simp [callLoop_zero]⟩
  | succ n ih =>
    intro s ac hlen hcur hfail
    obtain ⟨k, i, s2, hg, hlen2, hcur2⟩ :=
      getNext_ok s (time (ac + 1)) (by rw [hlen]; exact hL) (by rw [hlen]; exact hcur)
    rw [callLoop_step oracle time n s ac k i s2 hg]
    obtain ⟨s3, w, hstep⟩ :=
      attemptStep_of_fails s2 i (oracle (ac + 1)) (n == 0)
        (hfail (ac + 1) (by omega) (by omega))
    rw [hstep]
    show ∃ sf, callLoop oracle time n s3 (ac + 1) =
      (Except.error (exhaustMsg (ac + (n + 1))), sf, ac + (n + 1))
    have hlen3 : s3.states.length = L := by
      have h := (attemptStep_state s2 i (oracle (ac + 1)) (n == 0)).1
      rw [hstep] at h
      exact h.trans (hlen2.trans hlen)
    have hcur3 : s3.currentKeyIndex < L := by
      have h := (attemptStep_state s2 i (oracle (ac + 1)) (n == 0)).2
      rw [hstep] at h
      have h2 : s3.currentKeyIndex = s2.currentKeyIndex := h
      rw [h2, ← hlen, ← hlen2]
      exact hcur2
    obtain ⟨sf, heq⟩ := ih s3 (ac + 1) hlen3 hcur3
      (fun j hj1 hj2 => hfail j (by omega) (by omega))
    refine ⟨sf, ?_⟩
    rw [heq]
    have hadd : ac + 1 + n = ac + (n + 1) := by omega
    rw [hadd]

theorem callLoop_succeeds (oracle : Nat → FetchOutcome) (time : Nat → Nat) (L : Nat)
    (hL : L ≠ 0) :
    ∀ fuel (s : PoolState) (ac k : Nat), s.states.length = L → s.currentKeyIndex < L →
      ac < k → k ≤ ac + fuel →
      (∀ j, ac < j → j < k → outcomeSucceeds (oracle j) = false) →
      outcomeSucceeds (oracle k) = true →
      ∃ sf, callLoop oracle time fuel s ac =
        (Except.ok (extractedText (oracle k)), sf, k) := by
  intro fuel
  induction fuel with
  | zero => intro s ac k _ _ h1 h2 _ _; omega
  | succ n ih =>
    intro s ac k hlen hcur hk1 hk2 hfail hsucc
    obtain ⟨ky, i, s2, hg, hlen2, hcur2⟩ :=
      getNext_ok s (time (ac + 1)) (by rw [hlen]; exact hL) (by rw [hlen]; exact hcur)
    rw [callLoop_step oracle time n s ac ky i s2 hg]
    by_cases hke : k = ac + 1
    · subst hke
      rw [attemptStep_of_succeeds s2 i (oracle (ac + 1)) (n == 0) hsucc]
      exact ⟨markKeySuccess s2 i, rfl⟩
    · obtain ⟨s3, w, hstep⟩ :=
        attemptStep_of_fails s2 i (oracle (ac + 1)) (n == 0)
          (hfail (ac + 1) (by omega) (by omega))
      rw [hstep]
      show ∃ sf, callLoop oracle time n s3 (ac + 1) =
        (Except.ok (extractedText (oracle k)), sf, k)
      have hlen3 : s3.states.length = L := by
        have h := (attemptStep_state s2 i (oracle (ac + 1)) (n == 0)).1
        rw [hstep] at h
        exact h.trans (hlen2.trans hlen)
      have hcur3 : s3.currentKeyIndex < L := by
        have h := (attemptStep_state s2 i (oracle (ac + 1)) (n == 0)).2
        rw [hstep] at h
        have h2 : s3.currentKeyIndex = s2.currentKeyIndex := h
        rw [h2, ← hlen, ← hlen2]
        exact hcur2
      exact ih s3 (ac + 1) k hlen3 hcur3 (by omega) (by omega)
        (fun j hj1 hj2 => hfail j (by omega) hj2) hsucc

/-! ## Claim C4 -/

/-- C4: for a non blank prompt, callGeminiAPI makes at most pool size
times 3 attempts; when no attempt succeeds it returns the exhaustion
error carrying exactly that attempt count; and the first attempt whose
outcome yields extractable text makes the call return that text
immediately with the attempt count equal to the number of that attempt. -/
theorem C4_attempt_budget (prompt : String) (oracle : Nat → FetchOutcome)
    (time : Nat → Nat) (s : PoolState) (hp : jsTrim prompt ≠ "")
    (hc : s.states.length = 0 ∨ s.currentKeyIndex < s.states.length) :
    (callGeminiAPI prompt oracle time s).2.2 ≤ s.states.length * 3
    ∧ ((∀ j, 1 ≤ j → j ≤ s.states.length * 3 → outcomeSucceeds (oracle j) = false) →
        (callGeminiAPI prompt oracle time s).1 =
          Except.error (exhaustMsg (s.states.length * 3))
        ∧ (callGeminiAPI prompt oracle time s).2.2 = s.states.length * 3)
    ∧ (∀ k, 1 ≤ k → k ≤ s.states.length * 3 →
        (∀ j, 1 ≤ j → j < k → outcomeSucceeds (oracle j) = false) →
        outcomeSucceeds (oracle k) = true →
        (callGeminiAPI prompt oracle time s).1 = Except.ok (extractedText (oracle k))
        ∧ (callGeminiAPI prompt oracle time s).2.2 = k) := by
  have hcall : callGeminiAPI prompt oracle time s =
      callLoop oracle time (s.states.length * 3) s 0 := by
    simp only [callGeminiAPI, if_neg hp]
  rw [hcall]
  rcases hc with hc0 | hcur
  · have h30 : s.states.length * 3 = 0 := by rw [hc0]
    rw [h30]
    refine ⟨by simp [callLoop_zero], fun _ => ⟨rfl, rfl⟩, ?_⟩
    intro k hk1 hk2 _ _
    omega
  · have hL : s.states.length ≠ 0 := Nat.not_eq_zero_of_lt hcur
    refine ⟨?_, ?_, ?_⟩
    · have := callLoop_count_le oracle time (s.states.length * 3) s 0
      simpa using this
    · intro hall
      obtain ⟨sf, heq⟩ := callLoop_fail oracle time s.states.length hL
        (s.states.length * 3) s 0 rfl hcur
        (fun j hj1 hj2 => hall j (by omega) (by omega))
      rw [Nat.zero_add] at heq
      rw [heq]
      exact ⟨rfl, rfl⟩
    · intro k hk1 hk2 hfail hsucc
      obtain ⟨sf, heq⟩ := callLoop_succeeds oracle time s.states.length hL
        (s.states.length * 3) s 0 k rfl hcur (by omega) (by omega)
        (fun j hj1 hj2 => hfail j (by omega) hj2) hsucc
      rw [heq]
      exact ⟨rfl, rfl⟩

theorem C4_attempt_budget_witness :
    jsTrim wPromptHi ≠ "" ∧
    (callGeminiAPI wPromptHi wFetchFail wTime wPoolA).2.2 ≤ wPoolA.states.length * 3 :=
  ⟨by decide,
   (C4_attempt_budget wPromptHi wFetchFail wTime wPoolA (by decide) (Or.inr (by decide))).1⟩

/-! ## Claim C5 -/

/-- C5: a blank prompt makes callGeminiAPI fail with the invalid input
error before any credential is selected: the pool state is returned
unchanged and the attempt count is 0, so no retry happens. -/
theorem C5_empty_prompt (prompt : String) (oracle : Nat → FetchOutcome)
    (time : Nat → Nat) (s : PoolState) (hp : jsTrim prompt = "") :
    callGeminiAPI prompt oracle time s = (Except.error emptyPromptMsg, s, 0) := by
  simp only [callGeminiAPI, if_pos hp]

theorem C5_empty_prompt_witness :
    jsTrim wPromptBlank = "" ∧
    callGeminiAPI wPromptBlank wFetchFail wTime wDeadPool =
      (Except.error emptyPromptMsg, wDeadPool, 0) :=
  ⟨by decide, C5_empty_prompt wPromptBlank wFetchFail wTime wDeadPool (by decide)⟩

/-! ## Claim C6 -/

/-- C6: inside the retry loop, a 400 response whose message carries the
key not valid signal records the failure and advances without the 10
second wait, while 429, 5xx, a transport exception with attempts
remaining, an invalid response structure or a missing text body record
the failure and wait the fixed 10 second backoff. -/
theorem C6_failure_classification (s : PoolState) (i : Nat) :
    (∀ (msg : String) (isLast : Bool), hasSubstr msg apiKeyNotValidLit = true →
      attemptStep s i (FetchOutcome.httpError 400 msg) isLast =
        (markKeyError s i msg, AttemptResult.failure false))
    ∧ (∀ (msg : String) (isLast : Bool),
        attemptStep s i (FetchOutcome.httpError 429 msg) isLast =
          (markKeyError s i msg, AttemptResult.failure true))
    ∧ (∀ (msg : String) (status : Nat) (isLast : Bool), 500 ≤ status →
        attemptStep s i (FetchOutcome.httpError status msg) isLast =
          (markKeyError s i msg, AttemptResult.failure true))
    ∧ (∀ msg : String, attemptStep s i (FetchOutcome.exn msg) false =
        (markKeyError s i msg, AttemptResult.failure true))
    ∧ (∀ (tx : Option String) (isLast : Bool),
        attemptStep s i (FetchOutcome.ok ⟨false, none, tx⟩) isLast =
          (markKeyError s i invalidStructureMsg, AttemptResult.failure true))
    ∧ (∀ isLast : Bool, attemptStep s i (FetchOutcome.ok ⟨true, none, none⟩) isLast =
        (markKeyError s i noTextMsg, AttemptResult.failure true)) := by
  refine ⟨?_, ?_, ?_, ?_, ?_, ?_⟩
  · intro msg isLast hsub
    simp [attemptStep, hsub]
  · intro msg isLast
    simp [attemptStep]
  · intro msg status isLast hs
    have h403 : status ≠ 403 := by omega
    have h400 : status ≠ 400 := by omega
    simp [attemptStep, h403, h400, hs]
  · intro msg
    rfl
  · intro tx isLast
    rfl
  · intro isLast
    rfl

theorem C6_failure_classification_witness :
    hasSubstr apiKeyNotValidLit apiKeyNotValidLit = true ∧
    attemptStep wDeadPool 0 (FetchOutcome.httpError 400 apiKeyNotValidLit) false =
      (markKeyError wDeadPool 0 apiKeyNotValidLit, AttemptResult.failure false) :=
  ⟨by decide,
   (C6_failure_classification wDeadPool 0).1 apiKeyNotValidLit false (by decide)⟩

/-! ## Claim C9 -/

/-- C9: with a non blank prompt and an empty pool the retry budget is
0, so the loop body never runs: getNextGeminiKey is never consulted,
the state is unchanged, and the call fails with the exhaustion error
reporting 0 attempts, not with the no credentials error. -/
theorem C9_empty_pool (prompt : String) (oracle : Nat → FetchOutcome)
    (time : Nat → Nat) (s : PoolState) (hp : jsTrim prompt ≠ "")
    (h0 : s.states.length = 0) :
    callGeminiAPI prompt oracle time s = (Except.error (exhaustMsg 0), s, 0)
    ∧ exhaustMsg 0 ≠ noKeysMsg := by
  constructor
  · simp only [callGeminiAPI, if_neg hp, h0]
    rfl
  · decide

theorem C9_empty_pool_witness :
    jsTrim wPromptHi ≠ "" ∧ wEmptyPool.states.length = 0 ∧
    callGeminiAPI wPromptHi wFetchFail wTime wEmptyPool =
      (Except.error (exhaustMsg 0), wEmptyPool, 0) :=
  ⟨by decide, rfl, (C9_empty_pool wPromptHi wFetchFail wTime wEmptyPool (by decide) rfl).1⟩

/-! ## Claim C7 -/

/-- C7: the markdown fenced model text holding one record whose string
value contains a literal embedded newline parses, with expected shape
array, to exactly one record whose field a is the two fragments joined
by a single space. -/
theorem C7_embedded_newline :
    parseJsonRobust c7Input ExpectedType.array = Except.ok c7Expected := by
  rfl

/-! ## Helper lemmas for C8: no replacement pass of strategy 4 can
introduce the expected bracket, so every strategy fails on an input
without it -/

theorem mem_rewriteFuel {b : Char} (find : List Char → Option (Nat × List Char))
    (hout : ∀ t k out, find t = some (k, out) → b ∉ out) :
    ∀ (f : Nat) (s : List Char), b ∉ s → b ∉ rewriteFuel find f s := by
  intro f
  induction f with
  | zero =>
    intro s hs
    cases s with
    | nil => exact hs
    | cons c cs => exact hs
  | succ n ih =>
    intro s hs
    cases s with
    | nil => simp [rewriteFuel]
    | cons c cs =>
      cases hf : find (c :: cs) with
      | none =>
        have hred : rewriteFuel find (n + 1) (c :: cs) = c :: rewriteFuel find n cs := by
          rw [rewriteFuel, hf]
        rw [hred]
        intro hmem
        rcases List.mem_cons.mp hmem with h | h
        · exact hs (h ▸ List.mem_cons_self c cs)
        · exact ih cs (fun h2 => hs (List.mem_cons_of_mem c h2)) h
      | some p =>
        obtain ⟨k, out⟩ := p
        have hred : rewriteFuel find (n + 1) (c :: cs) =
            out ++ rewriteFuel find n (List.drop (k - 1) cs) := by
          rw [rewriteFuel, hf]
        rw [hred]
        intro hmem
        rcases List.mem_append.mp hmem with h | h
        · exact hout _ _ _ hf h
        · refine ih _ ?_ h
          intro h2
          exact hs (List.mem_cons_of_mem c (List.drop_subset _ _ h2))

theorem litFind_out {pat repl t : List Char} {k : Nat} {out : List Char}
    (h : litFind pat repl t = some (k, out)) : out = repl := by
  unfold litFind at h
  split at h
  · cases h; rfl
  · cases h

theorem litFindCI_out {pat repl t : List Char} {k : Nat} {out : List Char}
    (h : litFindCI pat repl t = some (k, out)) : out = repl := by
  unfold litFindCI at h
  split at h
  · cases h; rfl
  · cases h

theorem classFind_out {p : Char → Bool} {repl t : List Char} {k : Nat} {out : List Char}
    (h : classFind p repl t = some (k, out)) : out = repl := by
  unfold classFind at h
  cases t with
  | nil => cases h
  | cons c cs =>
    have h2 : (if p c = true then some (1, repl) else none) = some (k, out) := h
    by_cases hp : p c = true
    · rw [if_pos hp] at h2; cases h2; rfl
    · rw [if_neg hp] at h2; cases h2

theorem wsRunFind_out {t : List Char} {k : Nat} {out : List Char}
    (h : wsRunFind t = some (k, out)) : out = [' '] := by
  unfold wsRunFind at h
  cases t with
  | nil => cases h
  | cons c cs =>
    have h2 : (if isJsWs c = true then
        some (1 + (cs.takeWhile isJsWs).length, [' ']) else none) = some (k, out) := h
    by_cases hp : isJsWs c = true
    · rw [if_pos hp] at h2; cases h2; rfl
    · rw [if_neg hp] at h2; cases h2

theorem not_mem_replaceAllL {b : Char} (pat repl s : List Char)
    (hrepl : b ∉ repl) (hs : b ∉ s) : b ∉ replaceAllL pat repl s :=
  mem_rewriteFuel _ (fun t k out hf => by rw [litFind_out hf]; exact hrepl) _ _ hs

theorem not_mem_replaceAllCI {b : Char} (pat repl s : List Char)
    (hrepl : b ∉ repl) (hs : b ∉ s) : b ∉ replaceAllCI pat repl s :=
  mem_rewriteFuel _ (fun t k out hf => by rw [litFindCI_out hf]; exact hrepl) _ _ hs

theorem not_mem_replaceClass {b : Char} (p : Char → Bool) (repl s : List Char)
    (hrepl : b ∉ repl) (hs : b ∉ s) : b ∉ replaceClass p repl s :=
  mem_rewriteFuel _ (fun t k out hf => by rw [classFind_out hf]; exact hrepl) _ _ hs

theorem not_mem_collapseWs {b : Char} (s : List Char)
    (hb : b ∉ ([' '] : List Char)) (hs : b ∉ s) : b ∉ collapseWs s :=
  mem_rewriteFuel _ (fun t k out hf => by rw [wsRunFind_out hf]; exact hb) _ _ hs

theorem not_mem_trimChars {b : Char} (s : List Char) (hs : b ∉ s) : b ∉ trimChars s := by
  intro h
  apply hs
  unfold trimChars at h
  rw [List.mem_reverse] at h
  have h2 := ((s.dropWhile isJsWs).reverse.dropWhile_sublist isJsWs).subset h
  rw [List.mem_reverse] at h2
  exact (s.dropWhile_sublist isJsWs).subset h2

theorem not_mem_stripS4 {b : Char} (s : List Char) (hs : b ∉ s) :
    b ∉ stripLeadingJsonBackslashS s := by
  unfold stripLeadingJsonBackslashS
  split
  · intro h
    apply hs
    have h2 := ((s.drop 5).dropWhile_sublist (fun c => c.toLower == 's')).subset h
    exact List.drop_subset _ _ h2
  · exact hs

theorem not_mem_applyPairs {b : Char} (ps : List (List Char × List Char))
    (hps : ∀ p ∈ ps, b ∉ p.2) :
    ∀ s, b ∉ s → b ∉ applyPairs ps s := by
  induction ps with
  | nil => intro s hs; exact hs
  | cons p rest ih =>
    intro s hs
    show b ∉ applyPairs rest (replaceAllL p.1 p.2 s)
    exact ih (fun q hq => hps q (List.mem_cons_of_mem p hq)) _
      (not_mem_replaceAllL p.1 p.2 s (hps p (List.mem_cons_self p rest)) hs)

theorem not_mem_applyPairsRev {b : Char} (ps : List (List Char × List Char))
    (hps : ∀ p ∈ ps, b ∉ p.1) :
    ∀ s, b ∉ s → b ∉ applyPairsRev ps s := by
  induction ps with
  | nil => intro s hs; exact hs
  | cons p rest ih =>
    intro s hs
    show b ∉ applyPairsRev rest (replaceAllL p.2 p.1 s)
    exact ih (fun q hq => hps q (List.mem_cons_of_mem p hq)) _
      (not_mem_replaceAllL p.2 p.1 s (hps p (List.mem_cons_self p rest)) hs)

theorem not_mem_aggressiveClean (b : Char) (hb : b = '[' ∨ b = '\x7b')
    (r : List Char) (hr : b ∉ r) : b ∉ aggressiveClean r := by
  have hnil : b ∉ ([] : List Char) := List.not_mem_nil b
  have hsp : b ∉ ([' '] : List Char) := by rcases hb with rfl | rfl <;> decide
  have hq : b ∉ (['"'] : List Char) := by rcases hb with rfl | rfl <;> decide
  have hap : b ∉ (['\''] : List Char) := by rcases hb with rfl | rfl <;> decide
  have hel : b ∉ ellipsisRepl := by rcases hb with rfl | rfl <;> decide
  have hm2 : ∀ p ∈ escMapS4, b ∉ p.2 := by rcases hb with rfl | rfl <;> decide
  have hm1 : ∀ p ∈ escMapS4, b ∉ p.1 := by rcases hb with rfl | rfl <;> decide
  exact not_mem_collapseWs _ hsp
    (not_mem_replaceClass isEllipsis ellipsisRepl _ hel
      (not_mem_replaceClass isSmartSingle ['\''] _ hap
        (not_mem_replaceClass isSmartDouble ['"'] _ hq
          (not_mem_applyPairsRev escMapS4 hm1 _
            (not_mem_replaceClass ctrlB [' '] _ hsp
              (not_mem_applyPairs escMapS4 hm2 _
                (not_mem_trimChars _
                  (not_mem_stripS4 _
                    (not_mem_replaceAllL fenceLit [] _ hnil
                      (not_mem_replaceAllCI fenceJsLit [] _ hnil
                        (not_mem_replaceAllCI fenceJavascriptLit [] _ hnil
                          (not_mem_replaceAllCI fenceJsonLit [] _ hnil hr))))))))))))

theorem findIdx?_beq_none {b : Char} :
    ∀ (l : List Char), b ∉ l → ∀ i, List.findIdx? (fun c => c == b) l i = none := by
  intro l
  induction l with
  | nil => intro _ i; rfl
  | cons a t ih =>
    intro hs i
    show (if (a == b) = true then some i else List.findIdx? (fun c => c == b) t (i + 1)) = none
    have hne : (a == b) = false := by
      simp only [beq_eq_false_iff_ne, ne_eq]
      intro he
      exact hs (he ▸ List.mem_cons_self a t)
    rw [hne]
    simp only [Bool.false_eq_true, if_false]
    exact ih (fun h => hs (List.mem_cons_of_mem a h)) (i + 1)

theorem matchGreedy_eq_none (et : ExpectedType) (s : List Char)
    (hs : (bracketChars et).1 ∉ s) : matchGreedy et s = none := by
  unfold matchGreedy
  rw [findIdx?_beq_none s hs 0]
  cases lastIdxOf (bracketChars et).2 s <;> rfl

theorem strategy1_no_bracket (r : List Char) (et : ExpectedType)
    (h : (bracketChars et).1 ∉ r) : strategy1 r et = Except.error noJsonFoundMsg := by
  unfold strategy1
  rw [matchGreedy_eq_none et r h]

theorem strategy2_no_bracket (r : List Char) (et : ExpectedType)
    (h : (bracketChars et).1 ∉ r) : strategy2 r et = Except.error noOpeningBracketMsg := by
  unfold strategy2
  rw [findIdx?_beq_none r h 0]

theorem strategy3_no_bracket (r : List Char) (et : ExpectedType)
    (h : (bracketChars et).1 ∉ r) :
    strategy3 r et = Except.error invalidBracketPositionsMsg := by
  unfold strategy3
  rw [findIdx?_beq_none r h 0]

theorem strategy4_no_bracket (r : List Char) (et : ExpectedType)
    (h : (bracketChars et).1 ∉ r) :
    strategy4 r et = Except.error noJsonAfterCleanMsg := by
  have hb : (bracketChars et).1 = '[' ∨ (bracketChars et).1 = '\x7b' := by
    cases et
    · exact Or.inl rfl
    · exact Or.inr rfl
  unfold strategy4
  rw [matchGreedy_eq_none et (aggressiveClean r) (not_mem_aggressiveClean _ hb r h)]

theorem strategy5_no_bracket (r : List Char) (et : ExpectedType)
    (h : (bracketChars et).1 ∉ r) :
    strategy5 r et = Except.error cannotFindBoundariesMsg := by
  unfold strategy5
  rw [findIdx?_beq_none r h 0]

theorem strategy6_no_bracket (r : List Char) (et : ExpectedType)
    (h : (bracketChars et).1 ∉ r) :
    strategy6 r et = Except.error noOpeningBracketMsg := by
  unfold strategy6
  rw [findIdx?_beq_none r h 0]

theorem isPrefixOf_append_left (p q t : List Char)
    (h : (p ++ q).isPrefixOf t = true) : p.isPrefixOf t = true := by
  induction p generalizing t with
  | nil => cases t <;> rfl
  | cons a ps ih =>
    cases t with
    | nil => simp [List.isPrefixOf] at h
    | cons c ts =>
      simp only [List.cons_append, List.isPrefixOf, Bool.and_eq_true] at h ⊢
      exact ⟨h.1, ih ts h.2⟩

theorem errorSummary_no_bracket (r : List Char) (et : ExpectedType)
    (hfence : hasSubL fenceLit r = false)
    (hctrl : r.any (fun c => c.toNat ≤ 0x1f) = false)
    (hnb : (bracketChars et).1 ∉ r) :
    errorSummary r et = noBracketMsg et := by
  have hfj : hasSubL fenceJsonLit r = false := by
    cases hh : hasSubL fenceJsonLit r
    · rfl
    · exfalso
      rw [hasSubL, List.any_eq_true] at hh
      obtain ⟨t, ht, hp⟩ := hh
      have hfp : fenceLit.isPrefixOf t = true := by
        have he : fenceJsonLit = fenceLit ++ jsonLit := rfl
        rw [he] at hp
        exact isPrefixOf_append_left _ _ _ hp
      have : hasSubL fenceLit r = true := by
        rw [hasSubL, List.any_eq_true]
        exact ⟨t, ht, hfp⟩
      rw [this] at hfence
      cases hfence
  have hany : (r.any fun c => c == (bracketChars et).1) = false := by
    rw [List.any_eq_false]
    intro a ha
    simp only [beq_iff_eq]
    intro he
    exact hnb (he ▸ ha)
  unfold errorSummary
  rw [hfj, hfence, hctrl, hany]
  rfl

/-! ## Claim C8: counterexample and amended claim -/

/-- C8 counterexample: this input contains no array bracket at all, yet
the diagnostic of parseJsonRobust names the markdown category, not the
no bracket category, because the markdown branch of the classifier
comes first; the message does not contain the words naming the no
bracket category. -/
theorem C8_no_bracket_counterexample :
    ((bracketChars ExpectedType.array).1 ∉ c8CounterInput.data) ∧
    parseJsonRobust c8CounterInput ExpectedType.array = Except.error c8CounterMsg ∧
    hasSubL bracketFoundLit c8CounterMsg.data = false := by
  refine ⟨by decide, by rfl, by decide⟩

/-- C8 amended: for every input with no bracket of the expected type
that moreover contains no markdown fence and no control character (the
two classifier branches that take precedence), parseJsonRobust fails
after all six strategies with the message naming the no bracket
category and quoting the first strategy error. -/
theorem C8_no_bracket_amended (s : String) (et : ExpectedType)
    (hnb : (bracketChars et).1 ∉ s.data)
    (hfence : hasSubL fenceLit s.data = false)
    (hctrl : s.data.any (fun c => c.toNat ≤ 0x1f) = false) :
    parseJsonRobust s et = Except.error (c8Msg et) := by
  have hres : strategyResults s.data et =
      [Except.error noJsonFoundMsg, Except.error noOpeningBracketMsg,
       Except.error invalidBracketPositionsMsg, Except.error noJsonAfterCleanMsg,
       Except.error cannotFindBoundariesMsg, Except.error noOpeningBracketMsg] := by
    unfold strategyResults
    rw [strategy1_no_bracket s.data et hnb, strategy2_no_bracket s.data et hnb,
        strategy3_no_bracket s.data et hnb, strategy4_no_bracket s.data et hnb,
        strategy5_no_bracket s.data et hnb, strategy6_no_bracket s.data et hnb]
  unfold parseJsonRobust
  rw [hres]
  have hrun : runStrategies
      [Except.error noJsonFoundMsg, Except.error noOpeningBracketMsg,
       Except.error invalidBracketPositionsMsg, Except.error noJsonAfterCleanMsg,
       Except.error cannotFindBoundariesMsg, Except.error noOpeningBracketMsg] 1 =
      Except.error
        [strategyLabel 1 ++ noJsonFoundMsg, strategyLabel 2 ++ noOpeningBracketMsg,
         strategyLabel 3 ++ invalidBracketPositionsMsg,
         strategyLabel 4 ++ noJsonAfterCleanMsg,
         strategyLabel 5 ++ cannotFindBoundariesMsg,
         strategyLabel 6 ++ noOpeningBracketMsg] := rfl
  rw [hrun]
  rw [errorSummary_no_bracket s.data et hfence hctrl hnb]
  rfl

theorem C8_no_bracket_amended_witness :
    ((bracketChars ExpectedType.array).1 ∉ c8NoBracketSample.data) ∧
    hasSubL fenceLit c8NoBracketSample.data = false ∧
    c8NoBracketSample.data.any (fun c => c.toNat ≤ 0x1f) = false ∧
    parseJsonRobust c8NoBracketSample ExpectedType.array =
      Except.error (c8Msg ExpectedType.array) :=
  ⟨by decide, by decide, by decide,
   C8_no_bracket_amended c8NoBracketSample ExpectedType.array
     (by decide) (by decide) (by decide)⟩

end Quing
